import Mathlib

/-!
Verification of the subscription registry and protocol handlers of the
zotero/stream-server repository.

The registry lives in `src/connections.js`.  That file contains two variants
of the same module: a WebSocket variant (first half) and a server-sent-events
variant (second half).  Their index-manipulating code is identical line for
line; they differ in the payload of the `topicRemoved` event emitted by
`deleteAndNotifySubscriptions`, in the connection-identifier length chosen by
`registerConnection`, and in transport-level plumbing.  We embed the
WebSocket variant as the registry and separately embed the points where the
SSE variant differs.

Modelling conventions:
  - JavaScript objects with identity are keyed by their connection identifier.
    The JS heap of connection objects is `Registry.conns`; the live map
    `connections` of the source is the sub-list of `conns` whose keys are in
    `Registry.live` (`delete connections[id]` only removes the id from
    `live`; the object survives through references held by subscriptions).
    We assume generated identifiers are never reused, so a key of `conns`
    denotes one object forever.
  - A subscription object `{connection, apiKey, topic}` is the value triple
    `Subscription`; the source only ever compares these fields, never object identity
    of the subscription itself.
  - Operations that would throw a TypeError in the source (reading a property
    of `undefined`) return `none`; `none` also models the precondition that
    an argument object exists on the JS heap (a `Subscription` value whose connection
    was never created cannot arise in the source, where a subscription holds
    a direct object reference).
  - Counters are `Int` because `closeConnection` decrements without a guard.
-/

/-! ## Association lists (JavaScript object semantics)

A JS object is an insertion-ordered map.  `aset` replaces the value at an
existing key in place and appends a fresh key at the end, matching JS
property assignment. -/

def akeys {α : Type} (l : List (String × α)) : List String := l.map (fun p => p.1)

def alookup {α : Type} : List (String × α) → String → Option α
  | [], _ => none
  | (k', v) :: l, k => if k = k' then some v else alookup l k

def aset {α : Type} : List (String × α) → String → α → List (String × α)
  | [], k, v => [(k, v)]
  | (k', v') :: l, k, v => if k = k' then (k', v) :: l else (k', v') :: aset l k v

theorem alookup_aset_self {α : Type} (l : List (String × α)) (k : String) (v : α) :
    alookup (aset l k v) k = some v := by
  induction l with
  | nil => simp [aset, alookup]
  | cons p l ih =>
    obtain ⟨k', v'⟩ := p
    by_cases h : k = k'
    · simp [aset, h, alookup]
    · simp [aset, h, alookup, ih]

theorem alookup_aset_ne {α : Type} (l : List (String × α)) (k k' : String) (v : α)
    (h : k' ≠ k) : alookup (aset l k v) k' = alookup l k' := by
  induction l with
  | nil => simp [aset, alookup, h]
  | cons p l ih =>
    obtain ⟨k₀, v₀⟩ := p
    by_cases hk : k = k₀
    · subst hk
      simp [aset, alookup, h]
    · by_cases hk' : k' = k₀ <;> simp [aset, alookup, hk, hk', ih]

theorem alookup_isSome_iff {α : Type} (l : List (String × α)) (k : String) :
    (alookup l k).isSome ↔ k ∈ akeys l := by
  induction l with
  | nil => simp [alookup, akeys]
  | cons p l ih =>
    obtain ⟨k₀, v₀⟩ := p
    by_cases h : k = k₀ <;> simp [alookup, akeys, h, ih]

theorem akeys_aset_of_mem {α : Type} (l : List (String × α)) (k : String) (v : α)
    (h : k ∈ akeys l) : akeys (aset l k v) = akeys l := by
  induction l with
  | nil => simp [akeys] at h
  | cons p l ih =>
    obtain ⟨k₀, v₀⟩ := p
    by_cases hk : k = k₀
    · simp [aset, hk, akeys]
    · have h1 : k ∈ k₀ :: akeys l := h
      have h2 : k ∈ akeys l := by
        rcases List.mem_cons.mp h1 with h2 | h2
        · exact absurd h2 hk
        · exact h2
      rw [show aset ((k₀, v₀) :: l) k v = (k₀, v₀) :: aset l k v by simp [aset, hk]]
      show k₀ :: akeys (aset l k v) = k₀ :: akeys l
      rw [ih h2]

theorem akeys_aset_of_not_mem {α : Type} (l : List (String × α)) (k : String) (v : α)
    (h : ¬ k ∈ akeys l) : akeys (aset l k v) = akeys l ++ [k] := by
  induction l with
  | nil => simp [aset, akeys]
  | cons p l ih =>
    obtain ⟨k₀, v₀⟩ := p
    have h1 : ¬ k ∈ k₀ :: akeys l := h
    have hk : ¬ k = k₀ := fun he => h1 (by simp [he])
    have h2 : ¬ k ∈ akeys l := fun hm => h1 (List.mem_cons_of_mem _ hm)
    rw [show aset ((k₀, v₀) :: l) k v = (k₀, v₀) :: aset l k v by simp [aset, hk]]
    show k₀ :: akeys (aset l k v) = (k₀ :: akeys l) ++ [k]
    rw [ih h2]
    rfl

theorem mem_akeys_of_alookup {α : Type} {l : List (String × α)} {k : String} {v : α}
    (h : alookup l k = some v) : k ∈ akeys l := by
  have := (alookup_isSome_iff l k).mp (by simp [h])
  exact this

/-! ## Subscriptions and counting -/

/-- A subscription value: the triple held by the JS object
`{connection, apiKey, topic}`, with the connection named by its id. -/
structure Subscription where
  conn : String
  apiKey : String
  topic : String
deriving DecidableEq, Repr

/-- Number of occurrences of a subscription triple in a list. -/
def countSub (s : Subscription) : List Subscription → Nat
  | [] => 0
  | x :: l => (if x = s then 1 else 0) + countSub s l

theorem countSub_append (s : Subscription) (l₁ l₂ : List Subscription) :
    countSub s (l₁ ++ l₂) = countSub s l₁ + countSub s l₂ := by
  induction l₁ with
  | nil => simp [countSub]
  | cons x l ih => simp [countSub, ih]; omega

theorem countSub_pos_iff_mem (s : Subscription) (l : List Subscription) :
    0 < countSub s l ↔ s ∈ l := by
  induction l with
  | nil => simp [countSub]
  | cons x l ih =>
    by_cases h : x = s
    · subst h; simp [countSub]
    · simp [countSub, h, ih, Ne.symm h]

theorem countSub_eq_zero_iff (s : Subscription) (l : List Subscription) :
    countSub s l = 0 ↔ ¬ s ∈ l := by
  rw [← countSub_pos_iff_mem]
  omega

/-- Remove the first element satisfying `p`, as `Array.splice(i, 1)` after a
linear search with `break` does in the source. -/
def spliceFirst (p : Subscription → Bool) : List Subscription → List Subscription
  | [] => []
  | x :: l => if p x then l else x :: spliceFirst p l

theorem spliceFirst_subset (p : Subscription → Bool) (l : List Subscription) :
    ∀ x ∈ spliceFirst p l, x ∈ l := by
  induction l with
  | nil => intro x hx; simp [spliceFirst] at hx
  | cons y l ih =>
    intro x hx
    by_cases h : p y = true
    · rw [spliceFirst, if_pos h] at hx
      exact List.mem_cons_of_mem y hx
    · rw [spliceFirst, if_neg h] at hx
      rcases List.mem_cons.mp hx with h1 | h1
      · exact List.mem_cons.mpr (Or.inl h1)
      · exact List.mem_cons_of_mem y (ih x h1)

theorem spliceFirst_of_forall_not (p : Subscription → Bool) (l : List Subscription)
    (h : ∀ x ∈ l, ¬ p x = true) : spliceFirst p l = l := by
  induction l with
  | nil => rfl
  | cons x l ih =>
    have hx := h x (by simp)
    simp [spliceFirst, hx]
    exact ih (fun y hy => h y (by simp [hy]))

/-- When on `l` the predicate recognises exactly the triple `s`, splicing the
first match removes one occurrence of `s` (and nothing else). -/
theorem countSub_spliceFirst (p : Subscription → Bool) (l : List Subscription) (s : Subscription)
    (h : ∀ x ∈ l, p x = true ↔ x = s) :
    ∀ s', countSub s' (spliceFirst p l) = countSub s' l - (if s' = s then 1 else 0) := by
  induction l with
  | nil => intro s'; simp [spliceFirst, countSub]
  | cons x l ih =>
    intro s'
    have hx := h x (by simp)
    by_cases hpx : p x = true
    · have hxs : x = s := hx.mp hpx
      subst hxs
      simp [spliceFirst, hpx, countSub]
      by_cases hs' : s' = x
      · subst hs'; simp
      · simp [Ne.symm hs', hs']
    · have hxs : ¬ x = s := fun he => hpx (hx.mpr he)
      have ihl := ih (fun y hy => h y (by simp [hy])) s'
      rw [spliceFirst, if_neg hpx]
      show (if x = s' then 1 else 0) + countSub s' (spliceFirst p l)
            = (if x = s' then 1 else 0) + countSub s' l - (if s' = s then 1 else 0)
      rw [ihl]
      by_cases hs' : s' = s
      · subst hs'
        simp [hxs, Ne.symm hxs]
      · simp [hs']

theorem mem_spliceFirst_of_ne (p : Subscription → Bool) (l : List Subscription) (s s' : Subscription)
    (h : ∀ x ∈ l, p x = true ↔ x = s) (hne : s' ≠ s) :
    s' ∈ spliceFirst p l ↔ s' ∈ l := by
  have hc := countSub_spliceFirst p l s h s'
  rw [← countSub_pos_iff_mem, ← countSub_pos_iff_mem, hc]
  simp [hne]

/-- Insertion-order deduplication, as collecting JS object keys does. -/
def dedupFirst (l : List String) : List String :=
  l.foldl (fun acc x => if x ∈ acc then acc else acc ++ [x]) []

theorem dedupFirst_aux_length (l : List String) :
    ∀ acc : List String,
      acc.length ≤ (l.foldl (fun acc x => if x ∈ acc then acc else acc ++ [x]) acc).length := by
  induction l with
  | nil => intro acc; simp
  | cons x l ih =>
    intro acc
    by_cases h : x ∈ acc
    · simpa [h] using ih acc
    · have := ih (acc ++ [x])
      simp [h] at this ⊢
      omega

theorem dedupFirst_eq_nil_iff (l : List String) : dedupFirst l = [] ↔ l = [] := by
  constructor
  · intro h
    cases l with
    | nil => rfl
    | cons x l =>
      exfalso
      have h1 : (1 : Nat) ≤ (dedupFirst (x :: l)).length := by
        have := dedupFirst_aux_length l [x]
        simpa [dedupFirst, List.foldl] using this
      rw [h] at h1
      simp at h1
  · intro h; subst h; rfl

/-! ## Registry state

`connections.js` keeps module-level state: `connections` (id → connection
object), `topicSubscriptions` (topic → array of subscriptions),
`keySubscriptions` (apiKey → array of subscriptions), `numConnections`,
`numSubscriptions`.  `Registry.conns` is the heap of connection objects
(never shrinks; `delete connections[id]` removes `id` from `live` only). -/

/-- A connection object: `attributes.singleKey`, its `subscriptions` array
and its `accessTracking` map (modelled as the list of keys present). -/
structure Conn where
  singleKey : Bool
  subscriptions : List Subscription
  accessTracking : List String
deriving DecidableEq, Repr

structure Registry where
  conns : List (String × Conn)
  live : List String
  topicSubs : List (String × List Subscription)
  keySubs : List (String × List Subscription)
  numConnections : Int
  numSubscriptions : Int
deriving DecidableEq, Repr

def initRegistry : Registry := ⟨[], [], [], [], 0, 0⟩

/-- The JS expression `connections[cid]`: defined only while the id is live. -/
def liveConn (st : Registry) (cid : String) : Option Conn :=
  if cid ∈ st.live then alookup st.conns cid else none

/-- The subscription array of the connection object named `cid` (a direct
object-reference read, so it also works on a deregistered connection). -/
def subsOf (st : Registry) (cid : String) : List Subscription :=
  match alookup st.conns cid with
  | some c => c.subscriptions
  | none => []

def topicEntryD (st : Registry) (t : String) : List Subscription :=
  (alookup st.topicSubs t).getD []

def keyEntryD (st : Registry) (k : String) : List Subscription :=
  (alookup st.keySubs k).getD []

def singleKeyOf (st : Registry) (cid : String) : Option Bool :=
  (alookup st.conns cid).map (fun c => c.singleKey)

/-- Replace the connection object stored at `cid`. -/
def setConn (st : Registry) (cid : String) (c : Conn) : Registry :=
  { st with conns := aset st.conns cid c }

/-- A subscription is live when its connection is registered and the triple
sits in that connection's subscription array. -/
def SubLive (st : Registry) (s : Subscription) : Prop :=
  s.conn ∈ st.live ∧ s ∈ subsOf st s.conn

instance (st : Registry) (s : Subscription) : Decidable (SubLive st s) := by
  unfold SubLive
  infer_instance

/-! ## Registry primitives (from `src/connections.js`) -/

/-- Source `registerConnection` after the id-generation loop: store a fresh
connection object and bump the counter.  Freshness is checked against the
whole heap, embedding the modelling assumption that generated ids are never
reused (the source checks `connectionID in connections`, i.e. live ids). -/
def registerConnectionCore (st : Registry) (cid : String) (singleKey : Bool) :
    Option (Registry × String) :=
  if cid ∈ akeys st.conns then none
  else some ({ st with
    conns := aset st.conns cid ⟨singleKey, [], []⟩,
    live := st.live ++ [cid],
    numConnections := st.numConnections + 1 }, cid)

/-- Source `getTopicsByConnectionAndKey`. -/
def getTopicsByConnectionAndKey (c : Conn) (apiKey : String) : List String :=
  (c.subscriptions.filter (fun s => s.apiKey == apiKey)).map (fun s => s.topic)

/-- Source `getSubscriptionsByTopicPrefix`: `topic.indexOf(prefix) == 0` is
prefix matching. -/
def getSubscriptionsByTopicPrefix (st : Registry) (pre : String) : List Subscription :=
  st.topicSubs.foldl (fun acc p => if p.1.startsWith pre then acc ++ p.2 else acc) []

/-- Source `getSubscriptionsByKeyAndTopic`.  The topic parameter is optional
and the source tests it with JS truthiness (`!topic`), so an empty string
behaves like an omitted topic. -/
def getSubscriptionsByKeyAndTopic (st : Registry) (apiKey : String)
    (topic : Option String) : List Subscription :=
  match alookup st.keySubs apiKey with
  | none => []
  | some kl => kl.filter (fun s =>
      match topic with
      | none => true
      | some t => t == "" || s.topic == t)

/-- Source `countUniqueConnectionsInSubscriptions`. -/
def countUniqueConnectionsInSubscriptions (subs : List Subscription) : Nat :=
  (dedupFirst (subs.map (fun s => s.conn))).length

/-- Source `getAccessTracking`: implicit for single-key connections. -/
def getAccessTracking (c : Conn) (apiKey : String) : Bool :=
  c.singleKey || c.accessTracking.contains apiKey

/-- Source `enableAccessTracking` (`connection.accessTracking[apiKey] = true`).
The argument is a connection object, so it resolves through the heap. -/
def enableAccessTracking (st : Registry) (cid : String) (apiKey : String) :
    Option Registry :=
  match alookup st.conns cid with
  | none => none
  | some c =>
    some (setConn st cid { c with
      accessTracking := if apiKey ∈ c.accessTracking then c.accessTracking
                        else c.accessTracking ++ [apiKey] })

/-- Source `getAccessTrackingConnections` (WebSocket variant, which guards a
missing key entry): ids of distinct connections holding a subscription for
the key and access-tracked for it. -/
def getAccessTrackingConnections (st : Registry) (apiKey : String) : List String :=
  match alookup st.keySubs apiKey with
  | none => []
  | some kl =>
    dedupFirst ((kl.filter (fun s =>
      match alookup st.conns s.conn with
      | some c => getAccessTracking c apiKey
      | none => false)).map (fun s => s.conn))

/-- Source `addSubscription`.  The topic entry is created before the
duplicate check; a duplicate `(connection, apiKey)` pair in the topic entry
makes the call a no-op.  Otherwise the triple is pushed onto
`connections[connection.id].subscriptions` (a live-map lookup, hence `none`
on a dead connection), the topic entry and the key entry, and the counter is
incremented. -/
def addSubscription (st : Registry) (cid apiKey topic : String) : Option Registry :=
  let st₀ : Registry :=
    if (alookup st.topicSubs topic).isSome then st
    else { st with topicSubs := aset st.topicSubs topic [] }
  let tl := topicEntryD st₀ topic
  if tl.any (fun s => s.conn == cid && s.apiKey == apiKey) then some st₀
  else
    match liveConn st₀ cid with
    | none => none
    | some c =>
      let s : Subscription := ⟨cid, apiKey, topic⟩
      let st₁ := setConn st₀ cid { c with subscriptions := c.subscriptions ++ [s] }
      let st₂ := { st₁ with topicSubs := aset st₁.topicSubs topic (tl ++ [s]) }
      let st₃ := { st₂ with keySubs := aset st₂.keySubs apiKey (keyEntryD st₂ apiKey ++ [s]) }
      some { st₃ with numSubscriptions := st₃.numSubscriptions + 1 }

/-- Source `removeSubscription`.  Disables access tracking, splices the first
`(apiKey, topic)` match out of the connection object's array (recording
whether one was found), then splices the first `(connection, apiKey)` match
out of `topicSubscriptions[topic]` and the first `(connection, topic)` match
out of `keySubscriptions[apiKey]`.  The source reads
`topicSubscriptions[topic].length` and `keySubscriptions[apiKey].length`
without a guard, so a missing entry is a TypeError: `none`. -/
def removeSubscription (st : Registry) (s : Subscription) :
    Option (Registry × Bool) :=
  match alookup st.conns s.conn with
  | none => none
  | some c =>
    let removed := c.subscriptions.any (fun x => x.apiKey == s.apiKey && x.topic == s.topic)
    let c' : Conn := { c with
      accessTracking := c.accessTracking.filter (fun k => ¬ k == s.apiKey),
      subscriptions := spliceFirst (fun x => x.apiKey == s.apiKey && x.topic == s.topic)
        c.subscriptions }
    let st₁ := setConn st s.conn c'
    match alookup st₁.topicSubs s.topic with
    | none => none
    | some tl =>
      let tl' := spliceFirst (fun x => x.conn == s.conn && x.apiKey == s.apiKey) tl
      let st₂ := { st₁ with topicSubs := aset st₁.topicSubs s.topic tl' }
      match alookup st₂.keySubs s.apiKey with
      | none => none
      | some kl =>
        let kl' := spliceFirst (fun x => x.conn == s.conn && x.topic == s.topic) kl
        let st₃ := { st₂ with keySubs := aset st₂.keySubs s.apiKey kl' }
        some (if removed then { st₃ with numSubscriptions := st₃.numSubscriptions - 1 }
              else st₃, removed)

/-- Remove each subscription of a snapshot in order, as the loops of
`removeConnectionSubscriptionsByKeyAndTopic`, `deregisterConnection` and
`deleteAndNotifySubscriptions` do. -/
def remAll (st : Registry) : List Subscription → Option Registry
  | [] => some st
  | s :: l =>
    match removeSubscription st s with
    | none => none
    | some (st', _) => remAll st' l

/-- Source `removeConnectionSubscriptionsByKeyAndTopic`: snapshot the
matching subscriptions of the connection, remove each, return the snapshot
length. -/
def removeConnectionSubscriptionsByKeyAndTopic (st : Registry) (cid apiKey : String)
    (topic : Option String) : Option (Nat × Registry) :=
  match alookup st.keySubs apiKey with
  | none => some (0, st)
  | some _ =>
    let subs := (getSubscriptionsByKeyAndTopic st apiKey topic).filter
      (fun s => s.conn == cid)
    (remAll st subs).map (fun st' => (subs.length, st'))

/-- Source `closeConnection` (interval and socket teardown are I/O and not
modelled): decrement the counter unconditionally, delete the id from the
live map. -/
def closeConnection (st : Registry) (cid : String) : Registry :=
  { st with
    numConnections := st.numConnections - 1,
    live := st.live.filter (fun x => ¬ x == cid) }

/-- Source `deregisterConnection`: snapshot `conn.subscriptions` (the
`concat()` copy), remove each subscription, then close.  The argument is a
connection object, resolved through the heap so that a second call on an
already-deregistered connection still runs. -/
def deregisterConnection (st : Registry) (cid : String) : Option Registry :=
  match alookup st.conns cid with
  | none => none
  | some c => (remAll st c.subscriptions).map (fun st' => closeConnection st' cid)

/-! ## Events and action traces

`sendEvent` serialises `{event, ...data}` with `undefined` fields dropped by
`JSON.stringify`; an `Option` field set to `none` is therefore an omitted
payload field.  A trace records, in program order, each `removeSubscription`
call and each write to a connection sink. -/

structure CreateReportEntry where
  apiKey : Option String
  topics : List String
deriving DecidableEq, Repr

structure CreateErrorEntry where
  apiKey : Option String
  topic : String
  error : String
deriving DecidableEq, Repr

structure CreateResults where
  subscriptions : List CreateReportEntry
  errors : List CreateErrorEntry
deriving DecidableEq, Repr

inductive EventMsg where
  | topicAdded (apiKey : Option String) (topic : String)
  | topicRemoved (apiKey : Option String) (topic : String)
  | subscriptionsCreated (results : CreateResults)
  | subscriptionsDeleted
deriving DecidableEq, Repr

inductive TraceStep where
  | removed (s : Subscription) (ok : Bool)
  | sent (cid : String) (e : EventMsg)
deriving DecidableEq, Repr

/-! ## Composite registry operations -/

/-- Loop body of the WebSocket `deleteAndNotifySubscriptions`: for each
subscription, read `conn.attributes.singleKey`, compute
`skipKey = conn.attributes.singleKey || sub.apiKey == 'public'`, remove the
subscription, then send `topicRemoved` with the key omitted when `skipKey`. -/
def delNotifyGo (st : Registry) : List Subscription → Option (Registry × List TraceStep)
  | [] => some (st, [])
  | s :: rest =>
    match alookup st.conns s.conn with
    | none => none
    | some c =>
      let skipKey := c.singleKey || s.apiKey == "public"
      match removeSubscription st s with
      | none => none
      | some (st', ok) =>
        let e := EventMsg.topicRemoved (if skipKey then none else some s.apiKey) s.topic
        match delNotifyGo st' rest with
        | none => none
        | some (st'', acts) => some (st'', TraceStep.removed s ok :: TraceStep.sent s.conn e :: acts)

/-- Source `deleteAndNotifySubscriptions` (WebSocket variant), including the
early return when the subscriptions span no connection. -/
def deleteAndNotifySubscriptions (st : Registry) (subs : List Subscription) :
    Option (Registry × List TraceStep) :=
  if countUniqueConnectionsInSubscriptions subs = 0 then some (st, [])
  else delNotifyGo st subs

/-- Loop body of the SSE `deleteAndNotifySubscriptions`: identical to the
WebSocket variant except that the key is omitted only for single-key
connections — there is no check for the literal key `"public"`. -/
def sseDelNotifyGo (st : Registry) : List Subscription → Option (Registry × List TraceStep)
  | [] => some (st, [])
  | s :: rest =>
    match alookup st.conns s.conn with
    | none => none
    | some c =>
      match removeSubscription st s with
      | none => none
      | some (st', ok) =>
        let e := EventMsg.topicRemoved (if c.singleKey then none else some s.apiKey) s.topic
        match sseDelNotifyGo st' rest with
        | none => none
        | some (st'', acts) => some (st'', TraceStep.removed s ok :: TraceStep.sent s.conn e :: acts)

/-- Source `deleteAndNotifySubscriptions` (SSE variant). -/
def sseDeleteAndNotifySubscriptions (st : Registry) (subs : List Subscription) :
    Option (Registry × List TraceStep) :=
  if countUniqueConnectionsInSubscriptions subs = 0 then some (st, [])
  else sseDelNotifyGo st subs

/-- Loop body of `handleTopicAdded`: for each access-tracking connection,
send `topicAdded` (key omitted for single-key connections), then add the
subscription.  `getConnectionByID` yields `false` for a dead id and the
following attribute read would throw, hence the live lookup. -/
def topicAddedGo (st : Registry) (apiKey topic : String) :
    List String → Option (Registry × List TraceStep)
  | [] => some (st, [])
  | cid :: rest =>
    match liveConn st cid with
    | none => none
    | some c =>
      let e := EventMsg.topicAdded (if c.singleKey then none else some apiKey) topic
      match addSubscription st cid apiKey topic with
      | none => none
      | some st' =>
        match topicAddedGo st' apiKey topic rest with
        | none => none
        | some (st'', acts) => some (st'', TraceStep.sent cid e :: acts)

/-- Source `handleTopicAdded`. -/
def handleTopicAdded (st : Registry) (apiKey topic : String) :
    Option (Registry × List TraceStep) :=
  topicAddedGo st apiKey topic (getAccessTrackingConnections st apiKey)

/-- Source `handleTopicRemoved`. -/
def handleTopicRemoved (st : Registry) (apiKey topic : String) :
    Option (Registry × List TraceStep) :=
  deleteAndNotifySubscriptions st (getSubscriptionsByKeyAndTopic st apiKey (some topic))

/-- Source `handleTopicDeleted`. -/
def handleTopicDeleted (st : Registry) (topicPrefix : String) :
    Option (Registry × List TraceStep) :=
  deleteAndNotifySubscriptions st (getSubscriptionsByTopicPrefix st topicPrefix)

/-! ## Operation language

The registry operations named by the reachability claims.  A step that would
throw in the source yields `none` and ends the sequence. -/

inductive Op where
  | register (cid : String) (singleKey : Bool)
  | addSub (cid apiKey topic : String)
  | removeSub (s : Subscription)
  | removeByKeyAndTopic (cid apiKey : String) (topic : Option String)
  | topicAdded (apiKey topic : String)
  | topicRemoved (apiKey topic : String)
  | topicDeleted (topicPrefix : String)
  | deregister (cid : String)
  | enableTracking (cid apiKey : String)
deriving DecidableEq, Repr

def exec (st : Registry) : Op → Option Registry
  | .register cid sk => (registerConnectionCore st cid sk).map (fun p => p.1)
  | .addSub cid k t => addSubscription st cid k t
  | .removeSub s => (removeSubscription st s).map (fun p => p.1)
  | .removeByKeyAndTopic cid k t =>
      (removeConnectionSubscriptionsByKeyAndTopic st cid k t).map (fun p => p.2)
  | .topicAdded k t => (handleTopicAdded st k t).map (fun p => p.1)
  | .topicRemoved k t => (handleTopicRemoved st k t).map (fun p => p.1)
  | .topicDeleted p => (handleTopicDeleted st p).map (fun q => q.1)
  | .deregister cid => deregisterConnection st cid
  | .enableTracking cid k => enableAccessTracking st cid k

def execs (st : Registry) : List Op → Option Registry
  | [] => some st
  | op :: ops =>
    match exec st op with
    | none => none
    | some st' => execs st' ops

/-! ## Client protocol handlers (from `src/server.js` and the SSE server)

Inbound commands are modelled after JSON decoding.  JS truthiness matters:
`if (apiKey)` is false for a missing key and for the empty string; an empty
`topics` array is truthy but has length 0.  A thrown `WSError`/`HTTPError`
is an `Except.error`; mutations performed before a throw persist, so a
handler returns the registry alongside the verdict.  An outer `none` is an
unguarded TypeError (process fault). -/

inductive CmdError where
  | ws (code : Nat) (msg : String)
  | upstream
deriving DecidableEq, Repr

structure CreateEntry where
  apiKey : Option String
  topics : Option (List String)
deriving DecidableEq, Repr

structure CreateData where
  subscriptions : Option (List CreateEntry)
deriving DecidableEq, Repr

structure DeleteEntry where
  apiKey : Option String
  topic : Option String
deriving DecidableEq, Repr

structure DeleteData where
  subscriptions : Option (List DeleteEntry)
deriving DecidableEq, Repr

/-- JS truthiness of an optional string field (missing and `""` are falsy). -/
def keyTruthy : Option String → Bool
  | some k => k != ""
  | none => false

/-- A JS property key: an `undefined` used as an object key becomes the
string `"undefined"`. -/
def jsKeyString : Option String → String
  | some k => k
  | none => "undefined"

/-- An accumulator entry of the `successful` object built by the verify
phase of `handleCreate`.  `topics = none` models the case where the entry
was filled from an `availableTopics` variable that was never assigned
(`var` hoisting lets a previous iteration's value leak, or it can be
`undefined`); the create phase then crashes on `topics.length`. -/
structure SuccEntry where
  accessTracking : Bool
  topics : Option (List String)
deriving DecidableEq, Repr

structure FailedEntry where
  apiKey : Option String
  topic : String
  error : String
deriving DecidableEq, Repr

/-- State threaded through the verify loop of `handleCreate`: the hoisted
`availableTopics` variable, the `successful` object and the `failed` array. -/
structure VerifySt where
  avail : Option (List String)
  successful : List (String × SuccEntry)
  failed : List FailedEntry
deriving DecidableEq, Repr

/-- One topic of the inner verification loop of `handleCreate`.  Returns
`none` for the TypeError of pushing onto an `undefined` topics list. -/
def verifyTopic (pub : String → Option Bool) (entryKey : Option String)
    (vs : VerifySt) (t : String) : Option (Except CmdError VerifySt) :=
  if ¬ t.startsWith "/" then
    some (Except.error (CmdError.ws 400 "Topic must begin with a slash"))
  else if keyTruthy entryKey then
    let k := entryKey.getD ""
    if t ∈ (vs.avail.getD []) then
      match alookup vs.successful k with
      | none =>
        some (Except.ok { vs with successful := aset vs.successful k ⟨false, some [t]⟩ })
      | some cur =>
        match cur.topics with
        | none => none
        | some ts =>
          if t ∈ ts then some (Except.ok vs)
          else some (Except.ok { vs with
            successful := aset vs.successful k { cur with topics := some (ts ++ [t]) } })
    else
      some (Except.ok { vs with failed := vs.failed ++
        [⟨entryKey, t, "Topic is not valid for provided API key"⟩] })
  else
    match pub t with
    | none => some (Except.error CmdError.upstream)
    | some hasAccess =>
      if hasAccess then
        match alookup vs.successful "public" with
        | none =>
          some (Except.ok { vs with successful := aset vs.successful "public" ⟨false, some [t]⟩ })
        | some cur =>
          match cur.topics with
          | none => none
          | some ts =>
            if t ∈ ts then some (Except.ok vs)
            else some (Except.ok { vs with
              successful := aset vs.successful "public" { cur with topics := some (ts ++ [t]) } })
      else
        some (Except.ok { vs with failed := vs.failed ++
          [⟨entryKey, t, "Topic is not accessible without an API key"⟩] })

def verifyTopics (pub : String → Option Bool) (entryKey : Option String)
    (vs : VerifySt) : List String → Option (Except CmdError VerifySt)
  | [] => some (Except.ok vs)
  | t :: ts =>
    match verifyTopic pub entryKey vs t with
    | none => none
    | some (Except.error e) => some (Except.error e)
    | some (Except.ok vs') => verifyTopics pub entryKey vs' ts

/-- One entry of the verify loop of `handleCreate` (`server.js` 259-339):
resolve the key when truthy (a resolver throw aborts the command), insist on
`apiKey` or `topics`, then either check each listed topic or mark the whole
key for access tracking with all its available topics. -/
def verifyEntry (resolver : String → Option (List String)) (pub : String → Option Bool)
    (vs : VerifySt) (e : CreateEntry) : Option (Except CmdError VerifySt) :=
  let step1 : Except CmdError VerifySt :=
    if keyTruthy e.apiKey then
      match resolver (e.apiKey.getD "") with
      | none => Except.error CmdError.upstream
      | some ts => Except.ok { vs with avail := some ts }
    else if e.topics = none then
      Except.error (CmdError.ws 400 "Either apiKey or topics must be provided")
    else Except.ok vs
  match step1 with
  | Except.error err => some (Except.error err)
  | Except.ok vs' =>
    match e.topics with
    | some ts =>
      if ts ≠ [] then verifyTopics pub e.apiKey vs' ts
      else some (Except.ok { vs' with
        successful := aset vs'.successful (jsKeyString e.apiKey) ⟨true, vs'.avail⟩ })
    | none =>
      some (Except.ok { vs' with
        successful := aset vs'.successful (jsKeyString e.apiKey) ⟨true, vs'.avail⟩ })

def verifyEntries (resolver : String → Option (List String)) (pub : String → Option Bool)
    (vs : VerifySt) : List CreateEntry → Option (Except CmdError VerifySt)
  | [] => some (Except.ok vs)
  | e :: es =>
    match verifyEntry resolver pub vs e with
    | none => none
    | some (Except.error err) => some (Except.error err)
    | some (Except.ok vs') => verifyEntries resolver pub vs' es

def addSubAll (st : Registry) (cid apiKey : String) : List String → Option Registry
  | [] => some st
  | t :: ts =>
    match addSubscription st cid apiKey t with
    | none => none
    | some st' => addSubAll st' cid apiKey ts

/-- Create phase of `handleCreate` (`server.js` 342-351): for each key of
`successful`, enable access tracking when requested and add every topic. -/
def applySuccessful (st : Registry) (cid : String) :
    List (String × SuccEntry) → Option Registry
  | [] => some st
  | (k, e) :: rest =>
    let st₁ := if e.accessTracking then enableAccessTracking st cid k else some st
    match st₁ with
    | none => none
    | some st₁ =>
      match e.topics with
      | none => none
      | some ts =>
        match addSubAll st₁ cid k ts with
        | none => none
        | some st₂ => applySuccessful st₂ cid rest

/-- Report phase of `handleCreate` (`server.js` 353-372). -/
def mkCreateResults (st : Registry) (cid : String)
    (succ : List (String × SuccEntry)) (failed : List FailedEntry) : CreateResults :=
  { subscriptions := succ.map (fun p =>
      { apiKey := if p.1 ≠ "public" then some p.1 else none,
        topics := match alookup st.conns cid with
                  | some c => getTopicsByConnectionAndKey c p.1
                  | none => [] }),
    errors := failed.map (fun f =>
      { apiKey := if f.apiKey ≠ some "public" then f.apiKey else none,
        topic := f.topic,
        error := f.error }) }

/-- Shared body of the WebSocket `handleCreate` and the SSE
`handleCreateRequest`, which are identical after the WebSocket-only
single-key check: validate the `subscriptions` array, run the verify phase
(all Identity Resolver calls happen here, before any mutation), then the
create phase, then report. -/
def handleCreateCore (resolver : String → Option (List String))
    (pub : String → Option Bool) (st : Registry) (cid : String) (data : CreateData) :
    Option (Except CmdError CreateResults × Registry) :=
  match data.subscriptions with
  | none => some (Except.error (CmdError.ws 400 "subscriptions array not provided"), st)
  | some entries =>
    if entries = [] then
      some (Except.error (CmdError.ws 400 "subscriptions array is empty"), st)
    else
      match verifyEntries resolver pub ⟨none, [], []⟩ entries with
      | none => none
      | some (Except.error e) => some (Except.error e, st)
      | some (Except.ok vs) =>
        match applySuccessful st cid vs.successful with
        | none => none
        | some st' =>
          some (Except.ok (mkCreateResults st' cid vs.successful vs.failed), st')

/-- Source `handleCreate` (WebSocket variant, `server.js` 241-375).  The
`.ok` verdict carries the `subscriptionsCreated` event written to the
connection. -/
def handleCreate (resolver : String → Option (List String))
    (pub : String → Option Bool) (st : Registry) (cid : String) (data : CreateData) :
    Option (Except CmdError (List TraceStep) × Registry) :=
  match liveConn st cid with
  | none => none
  | some c =>
    if c.singleKey then
      some (Except.error (CmdError.ws 405 "Single-key connection cannot be modified"), st)
    else
      match handleCreateCore resolver pub st cid data with
      | none => none
      | some (Except.error e, st') => some (Except.error e, st')
      | some (Except.ok res, st') =>
        some (Except.ok [TraceStep.sent cid (EventMsg.subscriptionsCreated res)], st')

/-- Entry loop of `handleDelete` (`server.js` 397-410): per-entry
validation is interleaved with removal, so mutations made before a later
entry fails persist. -/
def deleteLoop (st : Registry) (cid : String) (total : Nat) :
    List DeleteEntry → Option (Except CmdError Nat × Registry)
  | [] => some (Except.ok total, st)
  | e :: rest =>
    match e.apiKey with
    | none => some (Except.error (CmdError.ws 400 "apiKey not provided"), st)
    | some k =>
      match removeConnectionSubscriptionsByKeyAndTopic st cid k e.topic with
      | none => none
      | some (n, st') => deleteLoop st' cid (total + n) rest

/-- Source `handleDelete` (WebSocket variant, `server.js` 383-421). -/
def handleDelete (st : Registry) (cid : String) (data : DeleteData) :
    Option (Except CmdError (List TraceStep) × Registry) :=
  match liveConn st cid with
  | none => none
  | some c =>
    if c.singleKey then
      some (Except.error (CmdError.ws 405 "Single-key connection cannot be modified"), st)
    else
      match data.subscriptions with
      | none => some (Except.error (CmdError.ws 400 "subscriptions array not provided"), st)
      | some entries =>
        if entries = [] then
          some (Except.error (CmdError.ws 400 "subscriptions array is empty"), st)
        else
          match deleteLoop st cid 0 entries with
          | none => none
          | some (Except.error e, st') => some (Except.error e, st')
          | some (Except.ok total, st') =>
            if total = 0 then
              some (Except.error (CmdError.ws 409 "No matching subscription"), st')
            else
              some (Except.ok [TraceStep.sent cid EventMsg.subscriptionsDeleted], st')

/-! ## SSE write side-channel and connection registration wrappers -/

/-- Source `handleDeleteRequest` (SSE variant, single `{apiKey, topic?}`
body; success surfaces as HTTP 204). -/
def sseHandleDeleteRequest (st : Registry) (cid : String) (e : DeleteEntry) :
    Option (Except CmdError Unit × Registry) :=
  match e.apiKey with
  | none => some (Except.error (CmdError.ws 400 "apiKey not provided"), st)
  | some k =>
    match removeConnectionSubscriptionsByKeyAndTopic st cid k e.topic with
    | none => none
    | some (n, st') =>
      if n = 0 then some (Except.error (CmdError.ws 409 "No matching subscription"), st')
      else some (Except.ok (), st')

inductive SseWriteMethod where
  | post (data : CreateData)
  | delete (entry : DeleteEntry)
deriving DecidableEq, Repr

/-- Whether a character matches the `[a-zA-Z0-9]` class of the route
pattern. -/
def isAlnumChar (c : Char) : Bool := c.isAlpha || c.isDigit

/-- Source `handleWriteRequest` (`part_002` 216-232): extract the id from
`/connections/([a-zA-Z0-9]+)`; look the connection up only when the id has
the multi-key length `connections.idLength = 12`; otherwise 404
"Connection not found".  The SSE create and delete handlers perform no
single-key check of their own. -/
def sseHandleWriteRequest (resolver : String → Option (List String))
    (pub : String → Option Bool) (st : Registry) (pathId : String)
    (method : SseWriteMethod) : Option (Except CmdError Unit × Registry) :=
  if pathId = "" ∨ ¬ pathId.toList.all isAlnumChar then
    some (Except.error (CmdError.ws 404 "Not found"), st)
  else
    match (if pathId.length = 12 then liveConn st pathId else none) with
    | none => some (Except.error (CmdError.ws 404 "Connection not found"), st)
    | some _ =>
      match method with
      | .post data =>
        match handleCreateCore resolver pub st pathId data with
        | none => none
        | some (Except.error e, st') => some (Except.error e, st')
        | some (Except.ok _, st') => some (Except.ok (), st')
      | .delete entry => sseHandleDeleteRequest st pathId entry

/-- Identifier length requested by the WebSocket `registerConnection`
(`connections.js` line 49): the constant 6, for every connection. -/
def wsIdLength : Nat := 6

/-- Identifier length requested by the SSE `registerConnection`
(`connections.js` lines 494 and 503): 6 for single-key connections,
`this.idLength = 12` otherwise. -/
def sseIdLength (singleKey : Bool) : Nat := if singleKey then 6 else 12

/-- The do-while generation loop: try `gen len 0`, `gen len 1`, ... until
an id not present in the live map comes out (`fuel` bounds the search; the
source retries forever).  `gen` stands for `randomstring.generate`. -/
def generateId (gen : Nat → Nat → String) (len : Nat) (st : Registry) (fuel : Nat) :
    Option String :=
  ((List.range fuel).map (gen len)).find? (fun id => ¬ id ∈ st.live)

/-- Source `registerConnection` (WebSocket variant, `connections.js` 46-69). -/
def wsRegisterConnection (gen : Nat → Nat → String) (fuel : Nat) (st : Registry)
    (singleKey : Bool) : Option (Registry × String) :=
  match generateId gen wsIdLength st fuel with
  | none => none
  | some cid => registerConnectionCore st cid singleKey

/-- Source `registerConnection` (SSE variant, `connections.js` 499-525). -/
def sseRegisterConnection (gen : Nat → Nat → String) (fuel : Nat) (st : Registry)
    (singleKey : Bool) : Option (Registry × String) :=
  match generateId gen (sseIdLength singleKey) st fuel with
  | none => none
  | some cid => registerConnectionCore st cid singleKey

/-! ## The registry invariant -/

def connCount (st : Registry) (s : Subscription) : Nat :=
  if s.conn ∈ st.live then countSub s (subsOf st s.conn) else 0

def topicCount (st : Registry) (s : Subscription) : Nat :=
  countSub s (topicEntryD st s.topic)

def keyCount (st : Registry) (s : Subscription) : Nat :=
  countSub s (keyEntryD st s.apiKey)

/-- The inductive invariant: live ids are backed by heap objects, every
index stores only subscriptions whose corresponding field matches its key,
and for every triple the three indexes agree on a multiplicity of at most
one. -/
structure RegInv (st : Registry) : Prop where
  liveSub : ∀ cid ∈ st.live, cid ∈ akeys st.conns
  wfConn : ∀ cid c, alookup st.conns cid = some c → ∀ s ∈ c.subscriptions, s.conn = cid
  wfTopic : ∀ t l, alookup st.topicSubs t = some l → ∀ s ∈ l, s.topic = t
  wfKey : ∀ k l, alookup st.keySubs k = some l → ∀ s ∈ l, s.apiKey = k
  agreeT : ∀ s, connCount st s = topicCount st s
  agreeK : ∀ s, keyCount st s = topicCount st s
  uniq : ∀ s, topicCount st s ≤ 1
  deadEmpty : ∀ cid c, alookup st.conns cid = some c → ¬ cid ∈ st.live →
    c.subscriptions = []

theorem regInv_init : RegInv initRegistry := by
  refine ⟨?_, ?_, ?_, ?_, ?_, ?_, ?_, ?_⟩ <;> intros <;>
    simp_all [initRegistry, alookup, connCount, topicCount, keyCount, subsOf,
      topicEntryD, keyEntryD, countSub]

theorem subLive_iff_connCount (st : Registry) (s : Subscription) :
    SubLive st s ↔ 0 < connCount st s := by
  unfold SubLive connCount
  by_cases h : s.conn ∈ st.live
  · simp [h, countSub_pos_iff_mem]
  · simp [h]

theorem aset_aset {α : Type} (l : List (String × α)) (k : String) (v w : α) :
    aset (aset l k v) k w = aset l k w := by
  induction l with
  | nil => simp [aset]
  | cons p l ih =>
    obtain ⟨k₀, v₀⟩ := p
    by_cases hk : k = k₀
    · simp [aset, hk]
    · simp [aset, hk, ih]

theorem wf_topicEntryD {st : Registry} (hInv : RegInv st) (t : String) :
    ∀ x ∈ topicEntryD st t, x.topic = t := by
  intro x hx
  unfold topicEntryD at hx
  cases hT : alookup st.topicSubs t with
  | none => rw [hT] at hx; simp at hx
  | some l =>
    rw [hT] at hx
    exact hInv.wfTopic t l hT x hx

theorem wf_keyEntryD {st : Registry} (hInv : RegInv st) (k : String) :
    ∀ x ∈ keyEntryD st k, x.apiKey = k := by
  intro x hx
  unfold keyEntryD at hx
  cases hK : alookup st.keySubs k with
  | none => rw [hK] at hx; simp at hx
  | some l =>
    rw [hK] at hx
    exact hInv.wfKey k l hK x hx

theorem wf_subsOf {st : Registry} (hInv : RegInv st) (cid : String) :
    ∀ x ∈ subsOf st cid, x.conn = cid := by
  intro x hx
  unfold subsOf at hx
  cases hC : alookup st.conns cid with
  | none => rw [hC] at hx; simp at hx
  | some c =>
    rw [hC] at hx
    exact hInv.wfConn cid c hC x hx

/-! ## removeSubscription: structure and preservation -/

theorem removeSubscription_elim {st : Registry} {s : Subscription}
    {st' : Registry} {b : Bool} (h : removeSubscription st s = some (st', b)) :
    ∃ c tl kl,
      alookup st.conns s.conn = some c ∧
      alookup st.topicSubs s.topic = some tl ∧
      alookup st.keySubs s.apiKey = some kl ∧
      b = c.subscriptions.any (fun x => x.apiKey == s.apiKey && x.topic == s.topic) ∧
      st'.conns = aset st.conns s.conn
        { c with
          accessTracking := c.accessTracking.filter (fun k => ¬ k == s.apiKey),
          subscriptions :=
            spliceFirst (fun x => x.apiKey == s.apiKey && x.topic == s.topic)
              c.subscriptions } ∧
      st'.topicSubs = aset st.topicSubs s.topic
        (spliceFirst (fun x => x.conn == s.conn && x.apiKey == s.apiKey) tl) ∧
      st'.keySubs = aset st.keySubs s.apiKey
        (spliceFirst (fun x => x.conn == s.conn && x.topic == s.topic) kl) ∧
      st'.live = st.live ∧
      st'.numConnections = st.numConnections ∧
      st'.numSubscriptions = st.numSubscriptions - (if b then 1 else 0) := by
  unfold removeSubscription at h
  cases hC : alookup st.conns s.conn with
  | none => rw [hC] at h; exact absurd h (by simp)
  | some c =>
    rw [hC] at h
    dsimp only [setConn] at h
    cases hT : alookup st.topicSubs s.topic with
    | none => rw [hT] at h; exact absurd h (by simp)
    | some tl =>
      rw [hT] at h
      dsimp only at h
      cases hK : alookup st.keySubs s.apiKey with
      | none => rw [hK] at h; exact absurd h (by simp)
      | some kl =>
        rw [hK] at h
        dsimp only at h
        obtain ⟨hst, hbb⟩ : _ ∧ _ := by
          have h2 := Option.some.inj h
          exact ⟨congrArg Prod.fst h2, congrArg Prod.snd h2⟩
        refine ⟨c, tl, kl, rfl, rfl, rfl, ?_⟩
        subst hbb
        by_cases hP : c.subscriptions.any
            (fun x => x.apiKey == s.apiKey && x.topic == s.topic) = true
        · rw [if_pos hP] at hst
          subst hst
          simp [hP]
        · rw [if_neg hP] at hst
          subst hst
          simp only [Bool.not_eq_true] at hP
          simp [hP]

/-- On a list whose members all have connection `cid = s.conn`, the splice
predicate of the per-connection array recognises exactly `s`. -/
theorem predConn_iff {l : List Subscription} {cid : String} {s : Subscription}
    (hwf : ∀ x ∈ l, x.conn = cid) (hs : s.conn = cid) :
    ∀ x ∈ l, ((x.apiKey == s.apiKey && x.topic == s.topic) = true) ↔ x = s := by
  intro x hx
  constructor
  · intro hp
    simp only [Bool.and_eq_true, beq_iff_eq] at hp
    have hc : x.conn = s.conn := by rw [hwf x hx, hs]
    obtain ⟨c1, k1, t1⟩ := x
    obtain ⟨c2, k2, t2⟩ := s
    simp_all
  · intro he
    subst he
    simp

/-- On a topic entry, the splice predicate of `removeSubscription`
recognises exactly `s`. -/
theorem predTopic_iff {l : List Subscription} {s : Subscription}
    (hwf : ∀ x ∈ l, x.topic = s.topic) :
    ∀ x ∈ l, ((x.conn == s.conn && x.apiKey == s.apiKey) = true) ↔ x = s := by
  intro x hx
  constructor
  · intro hp
    simp only [Bool.and_eq_true, beq_iff_eq] at hp
    have ht : x.topic = s.topic := hwf x hx
    obtain ⟨c1, k1, t1⟩ := x
    obtain ⟨c2, k2, t2⟩ := s
    simp_all
  · intro he
    subst he
    simp

/-- On a key entry, the splice predicate of `removeSubscription`
recognises exactly `s`. -/
theorem predKey_iff {l : List Subscription} {s : Subscription}
    (hwf : ∀ x ∈ l, x.apiKey = s.apiKey) :
    ∀ x ∈ l, ((x.conn == s.conn && x.topic == s.topic) = true) ↔ x = s := by
  intro x hx
  constructor
  · intro hp
    simp only [Bool.and_eq_true, beq_iff_eq] at hp
    have hk : x.apiKey = s.apiKey := hwf x hx
    obtain ⟨c1, k1, t1⟩ := x
    obtain ⟨c2, k2, t2⟩ := s
    simp_all
  · intro he
    subst he
    simp

/-- Under the invariant, `removeSubscription` lowers the multiplicity of the
removed triple by one in all three indexes, touches no other triple, and
preserves the invariant. -/
theorem removeSubscription_spec {st : Registry} {s : Subscription} {st' : Registry}
    {b : Bool} (hInv : RegInv st) (h : removeSubscription st s = some (st', b)) :
    (∀ s', connCount st' s' = connCount st s' - (if s' = s then 1 else 0)) ∧
    (∀ s', topicCount st' s' = topicCount st s' - (if s' = s then 1 else 0)) ∧
    (∀ s', keyCount st' s' = keyCount st s' - (if s' = s then 1 else 0)) ∧
    RegInv st' := by
  obtain ⟨c, tl, kl, hC, hT, hK, hb, hconns, htop, hkey, hlive, hnc, hns⟩ :=
    removeSubscription_elim h
  have hwfC : ∀ x ∈ c.subscriptions, x.conn = s.conn := hInv.wfConn s.conn c hC
  have hwfT : ∀ x ∈ tl, x.topic = s.topic := hInv.wfTopic s.topic tl hT
  have hwfK : ∀ x ∈ kl, x.apiKey = s.apiKey := hInv.wfKey s.apiKey kl hK
  have hpC := predConn_iff hwfC rfl
  have hpT := predTopic_iff hwfT
  have hpK := predKey_iff hwfK
  have hcc : ∀ s', connCount st' s' = connCount st s' - (if s' = s then 1 else 0) := by
    intro s'
    unfold connCount
    rw [hlive]
    by_cases hmem : s'.conn ∈ st.live
    · simp only [hmem, if_pos]
      by_cases hcid : s'.conn = s.conn
      · have h1 : subsOf st' s'.conn =
            spliceFirst (fun x => x.apiKey == s.apiKey && x.topic == s.topic)
              c.subscriptions := by
          unfold subsOf
          rw [hconns, hcid, alookup_aset_self]
        have h2 : subsOf st s'.conn = c.subscriptions := by
          unfold subsOf
          rw [hcid, hC]
        rw [h1, h2]
        exact countSub_spliceFirst _ _ _ hpC s'
      · have h1 : subsOf st' s'.conn = subsOf st s'.conn := by
          unfold subsOf
          rw [hconns, alookup_aset_ne _ _ _ _ hcid]
        have hne : ¬ s' = s := fun he => hcid (by rw [he])
        rw [h1, if_neg hne]
        omega
    · simp [hmem]
  have htc : ∀ s', topicCount st' s' = topicCount st s' - (if s' = s then 1 else 0) := by
    intro s'
    unfold topicCount
    by_cases htopic : s'.topic = s.topic
    · have h1 : topicEntryD st' s'.topic =
          spliceFirst (fun x => x.conn == s.conn && x.apiKey == s.apiKey) tl := by
        unfold topicEntryD
        rw [htop, htopic, alookup_aset_self]
        rfl
      have h2 : topicEntryD st s'.topic = tl := by
        unfold topicEntryD
        rw [htopic, hT]
        rfl
      rw [h1, h2]
      exact countSub_spliceFirst _ _ _ hpT s'
    · have h1 : topicEntryD st' s'.topic = topicEntryD st s'.topic := by
        unfold topicEntryD
        rw [htop, alookup_aset_ne _ _ _ _ htopic]
      have hne : ¬ s' = s := fun he => htopic (by rw [he])
      rw [h1, if_neg hne]
      omega
  have hkc : ∀ s', keyCount st' s' = keyCount st s' - (if s' = s then 1 else 0) := by
    intro s'
    unfold keyCount
    by_cases hkeyq : s'.apiKey = s.apiKey
    · have h1 : keyEntryD st' s'.apiKey =
          spliceFirst (fun x => x.conn == s.conn && x.topic == s.topic) kl := by
        unfold keyEntryD
        rw [hkey, hkeyq, alookup_aset_self]
        rfl
      have h2 : keyEntryD st s'.apiKey = kl := by
        unfold keyEntryD
        rw [hkeyq, hK]
        rfl
      rw [h1, h2]
      exact countSub_spliceFirst _ _ _ hpK s'
    · have h1 : keyEntryD st' s'.apiKey = keyEntryD st s'.apiKey := by
        unfold keyEntryD
        rw [hkey, alookup_aset_ne _ _ _ _ hkeyq]
      have hne : ¬ s' = s := fun he => hkeyq (by rw [he])
      rw [h1, if_neg hne]
      omega
  refine ⟨hcc, htc, hkc, ?_⟩
  constructor
  · intro cid hcid
    rw [hlive] at hcid
    rw [hconns, akeys_aset_of_mem _ _ _ (mem_akeys_of_alookup hC)]
    exact hInv.liveSub cid hcid
  · intro cid c₀ hlk s₀ hs₀
    rw [hconns] at hlk
    by_cases hcid : cid = s.conn
    · subst hcid
      rw [alookup_aset_self] at hlk
      have hc₀ := Option.some.inj hlk
      subst hc₀
      exact hwfC s₀ (spliceFirst_subset _ _ s₀ hs₀)
    · rw [alookup_aset_ne _ _ _ _ hcid] at hlk
      exact hInv.wfConn cid c₀ hlk s₀ hs₀
  · intro t l hlk s₀ hs₀
    rw [htop] at hlk
    by_cases ht' : t = s.topic
    · subst ht'
      rw [alookup_aset_self] at hlk
      have hl := Option.some.inj hlk
      subst hl
      exact hwfT s₀ (spliceFirst_subset _ _ s₀ hs₀) ▸ rfl
    · rw [alookup_aset_ne _ _ _ _ ht'] at hlk
      exact hInv.wfTopic t l hlk s₀ hs₀
  · intro k l hlk s₀ hs₀
    rw [hkey] at hlk
    by_cases hk' : k = s.apiKey
    · subst hk'
      rw [alookup_aset_self] at hlk
      have hl := Option.some.inj hlk
      subst hl
      exact hwfK s₀ (spliceFirst_subset _ _ s₀ hs₀) ▸ rfl
    · rw [alookup_aset_ne _ _ _ _ hk'] at hlk
      exact hInv.wfKey k l hlk s₀ hs₀
  · intro s'
    rw [hcc s', htc s', hInv.agreeT s']
  · intro s'
    rw [hkc s', htc s', hInv.agreeK s']
  · intro s'
    have := hInv.uniq s'
    rw [htc s']
    omega
  · intro cid c₀ hlk hdead
    rw [hconns] at hlk
    rw [hlive] at hdead
    by_cases hcid : cid = s.conn
    · subst hcid
      rw [alookup_aset_self] at hlk
      have hc₀ := Option.some.inj hlk
      subst hc₀
      show spliceFirst _ c.subscriptions = []
      rw [hInv.deadEmpty s.conn c hC hdead]
      rfl
    · rw [alookup_aset_ne _ _ _ _ hcid] at hlk
      exact hInv.deadEmpty cid c₀ hlk hdead

/-- Quantities untouched by `removeSubscription`: liveness, the heap keys,
which topic and key entries exist, and every connection's `singleKey`
attribute. -/
theorem removeSubscription_frame {st : Registry} {s : Subscription} {st' : Registry}
    {b : Bool} (h : removeSubscription st s = some (st', b)) :
    st'.live = st.live ∧
    akeys st'.conns = akeys st.conns ∧
    (∀ t, (alookup st'.topicSubs t).isSome ↔ (alookup st.topicSubs t).isSome) ∧
    (∀ k, (alookup st'.keySubs k).isSome ↔ (alookup st.keySubs k).isSome) ∧
    (∀ cid, singleKeyOf st' cid = singleKeyOf st cid) ∧
    st'.numConnections = st.numConnections := by
  obtain ⟨c, tl, kl, hC, hT, hK, hb, hconns, htop, hkey, hlive, hnc, hns⟩ :=
    removeSubscription_elim h
  refine ⟨hlive, ?_, ?_, ?_, ?_, hnc⟩
  · rw [hconns]
    exact akeys_aset_of_mem _ _ _ (mem_akeys_of_alookup hC)
  · intro t
    rw [htop]
    by_cases ht' : t = s.topic
    · subst ht'
      rw [alookup_aset_self]
      simp [hT]
    · rw [alookup_aset_ne _ _ _ _ ht']
  · intro k
    rw [hkey]
    by_cases hk' : k = s.apiKey
    · subst hk'
      rw [alookup_aset_self]
      simp [hK]
    · rw [alookup_aset_ne _ _ _ _ hk']
  · intro cid
    unfold singleKeyOf
    rw [hconns]
    by_cases hcid : cid = s.conn
    · subst hcid
      rw [alookup_aset_self, hC]
      rfl
    · rw [alookup_aset_ne _ _ _ _ hcid]

/-- Under the invariant, a removal makes exactly the removed triple dead. -/
theorem removeSubscription_subLive {st : Registry} {s : Subscription} {st' : Registry}
    {b : Bool} (hInv : RegInv st) (h : removeSubscription st s = some (st', b)) :
    ∀ s', SubLive st' s' ↔ (SubLive st s' ∧ s' ≠ s) := by
  intro s'
  obtain ⟨hcc, _, _, _⟩ := removeSubscription_spec hInv h
  rw [subLive_iff_connCount, subLive_iff_connCount, hcc s']
  by_cases he : s' = s
  · subst he
    have h1 : connCount st s' = topicCount st s' := hInv.agreeT s'
    have h2 : topicCount st s' ≤ 1 := hInv.uniq s'
    have hred : (if s' = s' then 1 else 0) = 1 := if_pos rfl
    rw [hred]
    constructor
    · intro hx
      exact absurd hx (by omega)
    · intro hx
      exact absurd rfl hx.2
  · simp [he]

/-- `removeSubscription` succeeds exactly when the connection object exists
and both index entries are present (otherwise the source throws). -/
theorem removeSubscription_isSome {st : Registry} {s : Subscription}
    (hc : (alookup st.conns s.conn).isSome)
    (ht : (alookup st.topicSubs s.topic).isSome)
    (hk : (alookup st.keySubs s.apiKey).isSome) :
    (removeSubscription st s).isSome := by
  unfold removeSubscription
  cases hC : alookup st.conns s.conn with
  | none => rw [hC] at hc; simp at hc
  | some c =>
    dsimp only [setConn]
    cases hT : alookup st.topicSubs s.topic with
    | none => rw [hT] at ht; simp at ht
    | some tl =>
      dsimp only
      cases hK : alookup st.keySubs s.apiKey with
      | none => rw [hK] at hk; simp at hk
      | some kl => simp

/-- The flag returned by `removeSubscription` is set exactly when the triple
sat in its connection's subscription array. -/
theorem removeSubscription_removed_iff {st : Registry} {s : Subscription}
    {st' : Registry} {b : Bool} (hInv : RegInv st)
    (h : removeSubscription st s = some (st', b)) :
    b = true ↔ s ∈ subsOf st s.conn := by
  obtain ⟨c, tl, kl, hC, hT, hK, hb, _⟩ := removeSubscription_elim h
  have hwfC : ∀ x ∈ c.subscriptions, x.conn = s.conn := hInv.wfConn s.conn c hC
  have hpC := predConn_iff hwfC rfl
  have hsub : subsOf st s.conn = c.subscriptions := by
    unfold subsOf
    rw [hC]
  rw [hb, hsub, List.any_eq_true]
  constructor
  · rintro ⟨x, hx, hpx⟩
    exact ((hpC x hx).mp hpx) ▸ hx
  · intro hm
    exact ⟨s, hm, (hpC s hm).mpr rfl⟩

/-- After `removeSubscription`, the explicit access-tracking flag for
`(s.conn, s.apiKey)` is cleared, and other connections' flags are kept. -/
theorem removeSubscription_tracking {st : Registry} {s : Subscription}
    {st' : Registry} {b : Bool} (h : removeSubscription st s = some (st', b)) :
    (∀ c', alookup st'.conns s.conn = some c' → ¬ s.apiKey ∈ c'.accessTracking) ∧
    (∀ cid c', cid ≠ s.conn → alookup st'.conns cid = some c' →
      alookup st.conns cid = some c') := by
  obtain ⟨c, tl, kl, hC, hT, hK, hb, hconns, _⟩ := removeSubscription_elim h
  constructor
  · intro c' hlk
    rw [hconns, alookup_aset_self] at hlk
    have hc' := Option.some.inj hlk
    subst hc'
    intro hm
    simp only [List.mem_filter] at hm
    have := hm.2
    simp at this
  · intro cid c' hne hlk
    rw [hconns, alookup_aset_ne _ _ _ _ hne] at hlk
    exact hlk

/-- Under the invariant, a live subscription is backed by its connection
object and both of its index entries. -/
theorem subLive_entries {st : Registry} {s : Subscription} (hInv : RegInv st)
    (hs : SubLive st s) :
    s.conn ∈ akeys st.conns ∧ (alookup st.topicSubs s.topic).isSome ∧
      (alookup st.keySubs s.apiKey).isSome := by
  have hcc : 0 < connCount st s := (subLive_iff_connCount st s).mp hs
  have htc : 0 < topicCount st s := by
    have := hInv.agreeT s
    omega
  have hkc : 0 < keyCount st s := by
    have := hInv.agreeK s
    have := hInv.agreeT s
    omega
  refine ⟨hInv.liveSub s.conn hs.1, ?_, ?_⟩
  · unfold topicCount topicEntryD at htc
    cases hT : alookup st.topicSubs s.topic with
    | none =>
      rw [hT] at htc
      simp [countSub] at htc
    | some _ => simp
  · unfold keyCount keyEntryD at hkc
    cases hK : alookup st.keySubs s.apiKey with
    | none =>
      rw [hK] at hkc
      simp [countSub] at hkc
    | some _ => simp

/-- Removing a snapshot of subscriptions preserves the invariant, kills
exactly the snapshot's triples and leaves everything else framed. -/
theorem remAll_spec {l : List Subscription} :
    ∀ {st st' : Registry}, RegInv st → remAll st l = some st' →
      RegInv st' ∧
      (∀ s', SubLive st' s' ↔ (SubLive st s' ∧ ¬ s' ∈ l)) ∧
      st'.live = st.live ∧
      akeys st'.conns = akeys st.conns ∧
      (∀ t, (alookup st'.topicSubs t).isSome ↔ (alookup st.topicSubs t).isSome) ∧
      (∀ k, (alookup st'.keySubs k).isSome ↔ (alookup st.keySubs k).isSome) ∧
      (∀ cid, singleKeyOf st' cid = singleKeyOf st cid) ∧
      st'.numConnections = st.numConnections := by
  induction l with
  | nil =>
    intro st st' hInv h
    have hst : st = st' := by
      unfold remAll at h
      exact Option.some.inj h
    subst hst
    exact ⟨hInv, fun s' => by simp, rfl, rfl, fun t => Iff.rfl, fun k => Iff.rfl,
      fun cid => rfl, rfl⟩
  | cons s rest ih =>
    intro st st' hInv h
    unfold remAll at h
    cases hr : removeSubscription st s with
    | none => rw [hr] at h; exact absurd h (by simp)
    | some p =>
      obtain ⟨st₁, b⟩ := p
      rw [hr] at h
      have hInv₁ := (removeSubscription_spec hInv hr).2.2.2
      obtain ⟨hInv', hlives, hlive, hkeys, htops, hks, hsk, hnc⟩ := ih hInv₁ h
      obtain ⟨hlive₁, hkeys₁, htops₁, hks₁, hsk₁, hnc₁⟩ := removeSubscription_frame hr
      have hsl := removeSubscription_subLive hInv hr
      refine ⟨hInv', ?_, ?_, ?_, ?_, ?_, ?_, ?_⟩
      · intro s'
        rw [hlives s', hsl s']
        constructor
        · rintro ⟨⟨h1, h2⟩, h3⟩
          exact ⟨h1, by simp [h2, h3]⟩
        · rintro ⟨h1, h2⟩
          simp only [List.mem_cons] at h2
          push_neg at h2
          exact ⟨⟨h1, h2.1⟩, h2.2⟩
      · rw [hlive, hlive₁]
      · rw [hkeys, hkeys₁]
      · intro t
        rw [htops t, htops₁ t]
      · intro k
        rw [hks k, hks₁ k]
      · intro cid
        rw [hsk cid, hsk₁ cid]
      · rw [hnc, hnc₁]

/-- Removing a list of subscriptions whose connections and index entries all
exist succeeds. -/
theorem remAll_isSome {l : List Subscription} :
    ∀ {st : Registry}, RegInv st →
      (∀ x ∈ l, x.conn ∈ akeys st.conns ∧ (alookup st.topicSubs x.topic).isSome ∧
        (alookup st.keySubs x.apiKey).isSome) →
      (remAll st l).isSome := by
  induction l with
  | nil => intro st _ _; simp [remAll]
  | cons s rest ih =>
    intro st hInv hl
    obtain ⟨hc, ht, hk⟩ := hl s (by simp)
    have hc' : (alookup st.conns s.conn).isSome := (alookup_isSome_iff _ _).mpr hc
    have hsome := removeSubscription_isSome hc' ht hk
    unfold remAll
    cases hr : removeSubscription st s with
    | none => rw [hr] at hsome; simp at hsome
    | some p =>
      obtain ⟨st₁, b⟩ := p
      have hInv₁ := (removeSubscription_spec hInv hr).2.2.2
      obtain ⟨hlive₁, hkeys₁, htops₁, hks₁, _, _⟩ := removeSubscription_frame hr
      exact ih hInv₁ (fun x hx => by
        obtain ⟨h1, h2, h3⟩ := hl x (by simp [hx])
        exact ⟨hkeys₁ ▸ h1, (htops₁ x.topic).mpr h2, (hks₁ x.apiKey).mpr h3⟩)

/-- `closeConnection` preserves the invariant provided every triple of the
closed connection already has multiplicity zero in the shared indexes. -/
theorem closeConnection_inv {st : Registry} {cid : String} (hInv : RegInv st)
    (hzero : ∀ s : Subscription, s.conn = cid → topicCount st s = 0)
    (hempty : subsOf st cid = []) :
    RegInv (closeConnection st cid) := by
  have hmem : ∀ x, x ∈ (closeConnection st cid).live ↔ (x ∈ st.live ∧ x ≠ cid) := by
    intro x
    unfold closeConnection
    simp [List.mem_filter]
  have hcounts : ∀ s : Subscription,
      connCount (closeConnection st cid) s =
        (if s.conn = cid then 0 else connCount st s) := by
    intro s
    unfold connCount
    by_cases hc : s.conn = cid
    · have hnm : ¬ s.conn ∈ (closeConnection st cid).live := by
        rw [hmem]
        intro hx
        exact hx.2 hc
      rw [if_neg hnm, if_pos hc]
    · have : s.conn ∈ (closeConnection st cid).live ↔ s.conn ∈ st.live := by
        rw [hmem]
        simp [hc]
      by_cases hm : s.conn ∈ st.live
      · have h2 : s.conn ∈ (closeConnection st cid).live := this.mpr hm
        simp only [h2, hm, if_pos, hc, if_neg]
        rfl
      · have h2 : ¬ s.conn ∈ (closeConnection st cid).live := fun hx => hm (this.mp hx)
        simp [h2, hm, hc]
  constructor
  · intro x hx
    exact hInv.liveSub x ((hmem x).mp hx).1
  · exact hInv.wfConn
  · exact hInv.wfTopic
  · exact hInv.wfKey
  · intro s
    rw [hcounts s]
    show _ = topicCount st s
    by_cases hc : s.conn = cid
    · rw [if_pos hc, hzero s hc]
    · rw [if_neg hc]
      exact hInv.agreeT s
  · intro s
    show keyCount st s = topicCount st s
    exact hInv.agreeK s
  · intro s
    exact hInv.uniq s
  · intro cid₀ c₀ hlk hdead
    show c₀.subscriptions = []
    by_cases he : cid₀ = cid
    · subst he
      have hlk' : alookup st.conns cid₀ = some c₀ := hlk
      unfold subsOf at hempty
      rw [hlk'] at hempty
      exact hempty
    · have hd : ¬ cid₀ ∈ st.live := by
        intro hx
        exact hdead ((hmem cid₀).mpr ⟨hx, he⟩)
      exact hInv.deadEmpty cid₀ c₀ hlk hd

/-- `deregisterConnection` preserves the invariant. -/
theorem deregisterConnection_inv {st : Registry} {cid : String} {st' : Registry}
    (hInv : RegInv st) (h : deregisterConnection st cid = some st') : RegInv st' := by
  unfold deregisterConnection at h
  cases hC : alookup st.conns cid with
  | none => rw [hC] at h; exact absurd h (by simp)
  | some c =>
    rw [hC] at h
    dsimp only at h
    cases hr : remAll st c.subscriptions with
    | none => rw [hr] at h; simp at h
    | some st₁ =>
      rw [hr] at h
      dsimp only [Option.map] at h
      have hst' : closeConnection st₁ cid = st' := Option.some.inj h
      obtain ⟨hInv₁, hlives, hlive₁, _, _, _, _, _⟩ := remAll_spec hInv hr
      have hzero : ∀ s : Subscription, s.conn = cid → topicCount st₁ s = 0 := by
        intro s hsc
        by_cases hmem : cid ∈ st.live
        · by_cases hml : SubLive st₁ s
          · exfalso
            obtain ⟨h1, h2⟩ := (hlives s).mp hml
            have : s ∈ subsOf st cid := by
              rw [← hsc]
              exact h1.2
            unfold subsOf at this
            rw [hC] at this
            exact h2 this
          · have := (subLive_iff_connCount st₁ s).not.mp hml
            have hcc : connCount st₁ s = 0 := by omega
            have := hInv₁.agreeT s
            omega
        · have hcc : connCount st₁ s = 0 := by
            unfold connCount
            have : ¬ s.conn ∈ st₁.live := by
              rw [hlive₁, hsc]
              exact hmem
            simp [this]
          have := hInv₁.agreeT s
          omega
      have hempty : subsOf st₁ cid = [] := by
        by_cases hmem : cid ∈ st.live
        · rw [List.eq_nil_iff_forall_not_mem]
          intro s hs
          have hsc : s.conn = cid := wf_subsOf hInv₁ cid s hs
          have hml : SubLive st₁ s := by
            constructor
            · rw [hsc, hlive₁]
              exact hmem
            · rw [hsc]
              exact hs
          obtain ⟨h1, h2⟩ := (hlives s).mp hml
          have h3 : s ∈ subsOf st cid := by
            rw [← hsc]
            exact h1.2
          unfold subsOf at h3
          rw [hC] at h3
          exact h2 h3
        · have hce : c.subscriptions = [] := hInv.deadEmpty cid c hC hmem
          rw [hce] at hr
          have hst₁ : st = st₁ := Option.some.inj hr
          rw [← hst₁]
          unfold subsOf
          rw [hC]
          exact hce
      rw [← hst']
      exact closeConnection_inv hInv₁ hzero hempty

/-! ## addSubscription: structure and preservation -/









/-- The result of the fresh path of `addSubscription`. -/
def addResult (st : Registry) (cid apiKey topic : String) (c : Conn) : Registry :=
  { conns := aset st.conns cid
      { c with subscriptions := c.subscriptions ++ [⟨cid, apiKey, topic⟩] },
    live := st.live,
    topicSubs := aset st.topicSubs topic (topicEntryD st topic ++ [⟨cid, apiKey, topic⟩]),
    keySubs := aset st.keySubs apiKey (keyEntryD st apiKey ++ [⟨cid, apiKey, topic⟩]),
    numConnections := st.numConnections,
    numSubscriptions := st.numSubscriptions + 1 }

/-- Duplicate path of `addSubscription`: the duplicate check can only fire on
a pre-existing topic entry, so the registry comes back unchanged. -/
theorem addSubscription_dup {st : Registry} {cid k t : String}
    (hdup : ∃ x ∈ topicEntryD st t, (x.conn == cid && x.apiKey == k) = true) :
    addSubscription st cid k t = some st := by
  obtain ⟨x, hx, hpx⟩ := hdup
  have hpres : (alookup st.topicSubs t).isSome := by
    unfold topicEntryD at hx
    cases hT : alookup st.topicSubs t with
    | none => rw [hT] at hx; simp at hx
    | some l => simp
  unfold addSubscription
  rw [if_pos hpres]
  have hany : (topicEntryD st t).any (fun s => s.conn == cid && s.apiKey == k) = true :=
    List.any_eq_true.mpr ⟨x, hx, hpx⟩
  rw [if_pos hany]

/-- Fresh path of `addSubscription`: no duplicate and a live connection. -/
theorem addSubscription_fresh {st : Registry} {cid k t : String} {c : Conn}
    (hdup : ∀ x ∈ topicEntryD st t, ¬ (x.conn == cid && x.apiKey == k) = true)
    (hcid : cid ∈ st.live) (hc : alookup st.conns cid = some c) :
    addSubscription st cid k t = some (addResult st cid k t c) := by
  unfold addSubscription
  by_cases hpres : (alookup st.topicSubs t).isSome
  · rw [if_pos hpres]
    have hany : ¬ (topicEntryD st t).any (fun s => s.conn == cid && s.apiKey == k) = true := by
      rw [List.any_eq_true]
      rintro ⟨x, hx, hpx⟩
      exact hdup x hx hpx
    rw [if_neg hany]
    have hlc : liveConn st cid = some c := by
      unfold liveConn
      rw [if_pos hcid, hc]
    rw [hlc]
    rfl
  · rw [if_neg hpres]
    dsimp only
    have hentry : topicEntryD st t = [] := by
      unfold topicEntryD
      cases hT : alookup st.topicSubs t with
      | none => rfl
      | some l => rw [hT] at hpres; simp at hpres
    have hentry' : topicEntryD { st with topicSubs := aset st.topicSubs t [] } t = [] := by
      unfold topicEntryD
      show (alookup (aset st.topicSubs t []) t).getD [] = []
      rw [alookup_aset_self]
      rfl
    rw [hentry']
    have hany : ¬ (List.any ([] : List Subscription) (fun s => s.conn == cid && s.apiKey == k)) = true := by simp
    rw [if_neg hany]
    have hlc : liveConn { st with topicSubs := aset st.topicSubs t [] } cid = some c := by
      unfold liveConn
      rw [if_pos hcid]
      exact hc
    rw [hlc]
    unfold addResult
    dsimp only [setConn]
    rw [hentry]
    rw [show (keyEntryD
        { conns := aset st.conns cid
            { c with subscriptions := c.subscriptions ++ [⟨cid, k, t⟩] },
          live := st.live,
          topicSubs := aset (aset st.topicSubs t []) t ([] ++ [⟨cid, k, t⟩]),
          keySubs := st.keySubs, numConnections := st.numConnections,
          numSubscriptions := st.numSubscriptions } k) = keyEntryD st k from rfl]
    rw [aset_aset]

/-- A failed `addSubscription`: no duplicate and a dead connection. -/
theorem addSubscription_dead {st : Registry} {cid k t : String}
    (hdup : ∀ x ∈ topicEntryD st t, ¬ (x.conn == cid && x.apiKey == k) = true)
    (hcid : liveConn st cid = none) :
    addSubscription st cid k t = none := by
  unfold addSubscription
  by_cases hpres : (alookup st.topicSubs t).isSome
  · rw [if_pos hpres]
    have hany : ¬ (topicEntryD st t).any (fun s => s.conn == cid && s.apiKey == k) = true := by
      rw [List.any_eq_true]
      rintro ⟨x, hx, hpx⟩
      exact hdup x hx hpx
    rw [if_neg hany, hcid]
  · rw [if_neg hpres]
    dsimp only
    have hentry' : topicEntryD { st with topicSubs := aset st.topicSubs t [] } t = [] := by
      unfold topicEntryD
      show (alookup (aset st.topicSubs t []) t).getD [] = []
      rw [alookup_aset_self]
      rfl
    rw [hentry']
    have hany : ¬ (List.any ([] : List Subscription) (fun s => s.conn == cid && s.apiKey == k)) = true := by simp
    rw [if_neg hany]
    have hlc : liveConn { st with topicSubs := aset st.topicSubs t [] } cid = none := by
      unfold liveConn at hcid ⊢
      by_cases hm : cid ∈ st.live
      · rw [if_pos hm] at hcid ⊢
        exact hcid
      · rw [if_neg hm]
    rw [hlc]

theorem countSub_singleton (s' x : Subscription) :
    countSub s' [x] = if s' = x then 1 else 0 := by
  by_cases h : s' = x
  · subst h
    simp [countSub]
  · have hx : ¬ x = s' := fun he => h (Eq.symm he)
    simp [countSub, h, hx]

theorem addSubscription_elim {st : Registry} {cid k t : String} {st' : Registry}
    (h : addSubscription st cid k t = some st') :
    (st' = st ∧ ∃ x ∈ topicEntryD st t, (x.conn == cid && x.apiKey == k) = true) ∨
    ((∀ x ∈ topicEntryD st t, ¬ (x.conn == cid && x.apiKey == k) = true) ∧
      cid ∈ st.live ∧ ∃ c, alookup st.conns cid = some c ∧
      st' = addResult st cid k t c) := by
  by_cases hdup : ∃ x ∈ topicEntryD st t, (x.conn == cid && x.apiKey == k) = true
  · left
    rw [addSubscription_dup hdup] at h
    exact ⟨(Option.some.inj h).symm, hdup⟩
  · right
    push_neg at hdup
    have hdup' : ∀ x ∈ topicEntryD st t, ¬ (x.conn == cid && x.apiKey == k) = true := by
      intro x hx
      simpa using hdup x hx
    cases hlc : liveConn st cid with
    | none =>
      rw [addSubscription_dead hdup' hlc] at h
      exact absurd h (by simp)
    | some c =>
      have hmem : cid ∈ st.live := by
        unfold liveConn at hlc
        by_cases hm : cid ∈ st.live
        · exact hm
        · rw [if_neg hm] at hlc
          exact absurd hlc (by simp)
      have hc : alookup st.conns cid = some c := by
        unfold liveConn at hlc
        rw [if_pos hmem] at hlc
        exact hlc
      rw [addSubscription_fresh hdup' hmem hc] at h
      exact ⟨hdup', hmem, c, hc, (Option.some.inj h).symm⟩

/-- Under the invariant, a successful `addSubscription` preserves the
invariant, makes exactly the new triple live (a duplicate call changes
nothing), and frames liveness, heap keys, entry existence and attributes. -/
theorem addSubscription_spec {st : Registry} {cid k t : String} {st' : Registry}
    (hInv : RegInv st) (h : addSubscription st cid k t = some st') :
    RegInv st' ∧
    (∀ s', SubLive st' s' ↔ (SubLive st s' ∨ s' = ⟨cid, k, t⟩)) ∧
    st'.live = st.live ∧
    akeys st'.conns = akeys st.conns ∧
    (∀ t', (alookup st.topicSubs t').isSome → (alookup st'.topicSubs t').isSome) ∧
    (∀ k', (alookup st.keySubs k').isSome → (alookup st'.keySubs k').isSome) ∧
    (∀ cid', singleKeyOf st' cid' = singleKeyOf st cid') ∧
    st'.numConnections = st.numConnections := by
  rcases addSubscription_elim h with ⟨hst, x, hx, hpx⟩ | ⟨hdup, hmem, c, hc, hst⟩
  · rw [hst]
    have hwf := wf_topicEntryD hInv t
    have hxs : x = ⟨cid, k, t⟩ := by
      simp only [Bool.and_eq_true, beq_iff_eq] at hpx
      have := hwf x hx
      obtain ⟨c1, k1, t1⟩ := x
      simp_all
    have hlive₀ : SubLive st ⟨cid, k, t⟩ := by
      rw [subLive_iff_connCount]
      have htc : 0 < topicCount st ⟨cid, k, t⟩ := by
        unfold topicCount
        rw [countSub_pos_iff_mem]
        show (⟨cid, k, t⟩ : Subscription) ∈ topicEntryD st t
        exact hxs ▸ hx
      have := hInv.agreeT ⟨cid, k, t⟩
      omega
    refine ⟨hInv, ?_, rfl, rfl, fun t' ht' => ht', fun k' hk' => hk', fun cid' => rfl, rfl⟩
    intro s'
    constructor
    · intro hs'
      exact Or.inl hs'
    · rintro (hs' | hs')
      · exact hs'
      · exact hs' ▸ hlive₀
  · rw [hst]
    have hs₀fresh : ¬ ⟨cid, k, t⟩ ∈ topicEntryD st t := by
      intro hm
      exact hdup ⟨cid, k, t⟩ hm (by simp)
    have htc0 : topicCount st ⟨cid, k, t⟩ = 0 := by
      unfold topicCount
      rw [countSub_eq_zero_iff]
      exact hs₀fresh
    have hsubs : subsOf st cid = c.subscriptions := by
      unfold subsOf
      rw [hc]
    have hsubs' : subsOf (addResult st cid k t c) cid =
        c.subscriptions ++ [⟨cid, k, t⟩] := by
      unfold subsOf addResult
      dsimp only
      rw [alookup_aset_self]
    have hsubsne : ∀ cid', cid' ≠ cid →
        subsOf (addResult st cid k t c) cid' = subsOf st cid' := by
      intro cid' hne
      unfold subsOf addResult
      dsimp only
      rw [alookup_aset_ne _ _ _ _ hne]
    have hcc : ∀ s', connCount (addResult st cid k t c) s' =
        connCount st s' + (if s' = (⟨cid, k, t⟩ : Subscription) then 1 else 0) := by
      intro s'
      unfold connCount
      have hlv : (addResult st cid k t c).live = st.live := rfl
      rw [hlv]
      by_cases hm : s'.conn ∈ st.live
      · rw [if_pos hm, if_pos hm]
        by_cases hcid : s'.conn = cid
        · rw [hcid, hsubs', hsubs, countSub_append, countSub_singleton]
        · rw [hsubsne s'.conn hcid]
          have : ¬ s' = (⟨cid, k, t⟩ : Subscription) := by
            intro he
            exact hcid (by rw [he])
          rw [if_neg this]
          omega
      · rw [if_neg hm, if_neg hm]
        have : ¬ s' = (⟨cid, k, t⟩ : Subscription) := by
          intro he
          subst he
          exact hm hmem
        rw [if_neg this]
    have htcd : ∀ s', topicCount (addResult st cid k t c) s' =
        topicCount st s' + (if s' = (⟨cid, k, t⟩ : Subscription) then 1 else 0) := by
      intro s'
      unfold topicCount
      by_cases ht' : s'.topic = t
      · have h1 : topicEntryD (addResult st cid k t c) s'.topic =
            topicEntryD st t ++ [⟨cid, k, t⟩] := by
          unfold topicEntryD addResult
          dsimp only
          rw [ht', alookup_aset_self]
          rfl
        rw [h1, ht', countSub_append, countSub_singleton]
      · have h1 : topicEntryD (addResult st cid k t c) s'.topic =
            topicEntryD st s'.topic := by
          unfold topicEntryD addResult
          dsimp only
          rw [alookup_aset_ne _ _ _ _ ht']
        have : ¬ s' = (⟨cid, k, t⟩ : Subscription) := by
          intro he
          exact ht' (by rw [he])
        rw [h1, if_neg this]
        omega
    have hkcd : ∀ s', keyCount (addResult st cid k t c) s' =
        keyCount st s' + (if s' = (⟨cid, k, t⟩ : Subscription) then 1 else 0) := by
      intro s'
      unfold keyCount
      by_cases hk' : s'.apiKey = k
      · have h1 : keyEntryD (addResult st cid k t c) s'.apiKey =
            keyEntryD st k ++ [⟨cid, k, t⟩] := by
          unfold keyEntryD addResult
          dsimp only
          rw [hk', alookup_aset_self]
          rfl
        rw [h1, hk', countSub_append, countSub_singleton]
      · have h1 : keyEntryD (addResult st cid k t c) s'.apiKey =
            keyEntryD st s'.apiKey := by
          unfold keyEntryD addResult
          dsimp only
          rw [alookup_aset_ne _ _ _ _ hk']
        have : ¬ s' = (⟨cid, k, t⟩ : Subscription) := by
          intro he
          exact hk' (by rw [he])
        rw [h1, if_neg this]
        omega
    have hInv' : RegInv (addResult st cid k t c) := by
      constructor
      · intro x hx
        show x ∈ akeys (aset st.conns cid _)
        rw [akeys_aset_of_mem _ _ _ (mem_akeys_of_alookup hc)]
        exact hInv.liveSub x hx
      · intro cid' c₀ hlk s₀ hs₀
        show s₀.conn = cid'
        by_cases hcid : cid' = cid
        · subst hcid
          unfold addResult at hlk
          dsimp only at hlk
          rw [alookup_aset_self] at hlk
          have := Option.some.inj hlk
          subst this
          simp only [List.mem_append, List.mem_singleton] at hs₀
          rcases hs₀ with hs₀ | hs₀
          · exact hInv.wfConn cid' c hc s₀ hs₀
          · rw [hs₀]
        · unfold addResult at hlk
          dsimp only at hlk
          rw [alookup_aset_ne _ _ _ _ hcid] at hlk
          exact hInv.wfConn cid' c₀ hlk s₀ hs₀
      · intro t' l hlk s₀ hs₀
        show s₀.topic = t'
        by_cases ht' : t' = t
        · subst ht'
          unfold addResult at hlk
          dsimp only at hlk
          rw [alookup_aset_self] at hlk
          have := Option.some.inj hlk
          subst this
          simp only [List.mem_append, List.mem_singleton] at hs₀
          rcases hs₀ with hs₀ | hs₀
          · exact wf_topicEntryD hInv t' s₀ hs₀
          · rw [hs₀]
        · unfold addResult at hlk
          dsimp only at hlk
          rw [alookup_aset_ne _ _ _ _ ht'] at hlk
          exact hInv.wfTopic t' l hlk s₀ hs₀
      · intro k' l hlk s₀ hs₀
        show s₀.apiKey = k'
        by_cases hk' : k' = k
        · subst hk'
          unfold addResult at hlk
          dsimp only at hlk
          rw [alookup_aset_self] at hlk
          have := Option.some.inj hlk
          subst this
          simp only [List.mem_append, List.mem_singleton] at hs₀
          rcases hs₀ with hs₀ | hs₀
          · exact wf_keyEntryD hInv k' s₀ hs₀
          · rw [hs₀]
        · unfold addResult at hlk
          dsimp only at hlk
          rw [alookup_aset_ne _ _ _ _ hk'] at hlk
          exact hInv.wfKey k' l hlk s₀ hs₀
      · intro s'
        rw [hcc s', htcd s', hInv.agreeT s']
      · intro s'
        rw [hkcd s', htcd s', hInv.agreeK s']
      · intro s'
        rw [htcd s']
        by_cases he : s' = (⟨cid, k, t⟩ : Subscription)
        · subst he
          rw [htc0, if_pos rfl]
        · rw [if_neg he]
          have := hInv.uniq s'
          omega
      · intro cid' c₀ hlk hdead
        show c₀.subscriptions = []
        unfold addResult at hlk
        dsimp only at hlk
        by_cases he : cid' = cid
        · subst he
          exact absurd hmem hdead
        · rw [alookup_aset_ne _ _ _ _ he] at hlk
          exact hInv.deadEmpty cid' c₀ hlk hdead
    refine ⟨hInv', ?_, rfl, ?_, ?_, ?_, ?_, rfl⟩
    · intro s'
      rw [subLive_iff_connCount, subLive_iff_connCount, hcc s']
      by_cases he : s' = (⟨cid, k, t⟩ : Subscription)
      · rw [if_pos he]
        simp [he]
      · rw [if_neg he]
        simp [he]
    · show akeys (aset st.conns cid _) = akeys st.conns
      exact akeys_aset_of_mem _ _ _ (mem_akeys_of_alookup hc)
    · intro t' ht'
      show (alookup (aset st.topicSubs t _) t').isSome
      by_cases he : t' = t
      · subst he
        rw [alookup_aset_self]
        simp
      · rw [alookup_aset_ne _ _ _ _ he]
        exact ht'
    · intro k' hk'
      show (alookup (aset st.keySubs k _) k').isSome
      by_cases he : k' = k
      · subst he
        rw [alookup_aset_self]
        simp
      · rw [alookup_aset_ne _ _ _ _ he]
        exact hk'
    · intro cid'
      unfold singleKeyOf addResult
      dsimp only
      by_cases he : cid' = cid
      · subst he
        rw [alookup_aset_self, hc]
        rfl
      · rw [alookup_aset_ne _ _ _ _ he]

/-! ## registerConnection, enableAccessTracking, and framing -/

/-- Facts every registry-mutating step preserves (entry existence only needs
to be monotone: the source never deletes an index entry). -/
def Frames (st st' : Registry) : Prop :=
  st'.live = st.live ∧
  akeys st'.conns = akeys st.conns ∧
  (∀ t, (alookup st.topicSubs t).isSome → (alookup st'.topicSubs t).isSome) ∧
  (∀ k, (alookup st.keySubs k).isSome → (alookup st'.keySubs k).isSome) ∧
  (∀ cid, singleKeyOf st' cid = singleKeyOf st cid) ∧
  st'.numConnections = st.numConnections

theorem frames_refl (st : Registry) : Frames st st :=
  ⟨rfl, rfl, fun _ h => h, fun _ h => h, fun _ => rfl, rfl⟩

theorem frames_trans {st₁ st₂ st₃ : Registry} (h₁ : Frames st₁ st₂)
    (h₂ : Frames st₂ st₃) : Frames st₁ st₃ := by
  obtain ⟨a1, b1, c1, d1, e1, f1⟩ := h₁
  obtain ⟨a2, b2, c2, d2, e2, f2⟩ := h₂
  exact ⟨a2.trans a1, b2.trans b1, fun t h => c2 t (c1 t h), fun k h => d2 k (d1 k h),
    fun cid => (e2 cid).trans (e1 cid), f2.trans f1⟩

theorem removeSubscription_frames {st : Registry} {s : Subscription} {st' : Registry}
    {b : Bool} (h : removeSubscription st s = some (st', b)) : Frames st st' := by
  obtain ⟨h1, h2, h3, h4, h5, h6⟩ := removeSubscription_frame h
  exact ⟨h1, h2, fun t ht => (h3 t).mpr ht, fun k hk => (h4 k).mpr hk, h5, h6⟩

theorem addSubscription_frames {st : Registry} {cid k t : String} {st' : Registry}
    (hInv : RegInv st) (h : addSubscription st cid k t = some st') : Frames st st' := by
  obtain ⟨_, _, h3, h4, h5, h6, h7, h8⟩ := addSubscription_spec hInv h
  exact ⟨h3, h4, h5, h6, h7, h8⟩

theorem registerConnectionCore_elim {st : Registry} {cid : String} {sk : Bool}
    {st' : Registry} {cid' : String}
    (h : registerConnectionCore st cid sk = some (st', cid')) :
    ¬ cid ∈ akeys st.conns ∧ cid' = cid ∧
    st' = { st with
      conns := aset st.conns cid ⟨sk, [], []⟩,
      live := st.live ++ [cid],
      numConnections := st.numConnections + 1 } := by
  unfold registerConnectionCore at h
  by_cases hm : cid ∈ akeys st.conns
  · rw [if_pos hm] at h
    exact absurd h (by simp)
  · rw [if_neg hm] at h
    have := Option.some.inj h
    exact ⟨hm, (congrArg Prod.snd this).symm, (congrArg Prod.fst this).symm⟩

/-- Registration preserves the invariant and the set of live subscriptions
(the new connection starts with none). -/
theorem registerConnectionCore_spec {st : Registry} {cid : String} {sk : Bool}
    {st' : Registry} {cid' : String} (hInv : RegInv st)
    (h : registerConnectionCore st cid sk = some (st', cid')) :
    RegInv st' ∧ (∀ s', SubLive st' s' ↔ SubLive st s') := by
  obtain ⟨hm, hcid, hst⟩ := registerConnectionCore_elim h
  have hnl : ¬ cid ∈ st.live := fun hx => hm (hInv.liveSub cid hx)
  have hsubs : ∀ cid', subsOf st' cid' =
      (if cid' = cid then [] else subsOf st cid') := by
    intro cid'
    by_cases he : cid' = cid
    · subst he
      rw [if_pos rfl]
      unfold subsOf
      rw [hst]
      dsimp only
      rw [alookup_aset_self]
    · rw [if_neg he]
      unfold subsOf
      rw [hst]
      dsimp only
      rw [alookup_aset_ne _ _ _ _ he]
  have hmemlive : ∀ x, x ∈ st'.live ↔ (x ∈ st.live ∨ x = cid) := by
    intro x
    rw [hst]
    simp
  have hcc : ∀ s', connCount st' s' = connCount st s' := by
    intro s'
    unfold connCount
    by_cases he : s'.conn = cid
    · have h1 : s'.conn ∈ st'.live := (hmemlive s'.conn).mpr (Or.inr he)
      rw [if_pos h1, hsubs s'.conn, if_pos he]
      have h2 : ¬ s'.conn ∈ st.live := he ▸ hnl
      rw [if_neg h2]
      rfl
    · have h1 : s'.conn ∈ st'.live ↔ s'.conn ∈ st.live := by
        rw [hmemlive]
        simp [he]
      rw [hsubs s'.conn, if_neg he]
      by_cases h2 : s'.conn ∈ st.live
      · rw [if_pos (h1.mpr h2), if_pos h2]
      · rw [if_neg (fun hx => h2 (h1.mp hx)), if_neg h2]
  have htc : ∀ s', topicCount st' s' = topicCount st s' := by
    intro s'
    unfold topicCount topicEntryD
    rw [hst]
  have hkc : ∀ s', keyCount st' s' = keyCount st s' := by
    intro s'
    unfold keyCount keyEntryD
    rw [hst]
  refine ⟨⟨?_, ?_, ?_, ?_, ?_, ?_, ?_, ?_⟩, ?_⟩
  · intro x hx
    rw [hst]
    dsimp only
    rw [akeys_aset_of_not_mem _ _ _ hm]
    rcases (hmemlive x).mp hx with h1 | h1
    · exact List.mem_append.mpr (Or.inl (hInv.liveSub x h1))
    · exact List.mem_append.mpr (Or.inr (by simp [h1]))
  · intro cid₀ c₀ hlk s₀ hs₀
    rw [hst] at hlk
    dsimp only at hlk
    by_cases he : cid₀ = cid
    · subst he
      rw [alookup_aset_self] at hlk
      have := Option.some.inj hlk
      subst this
      simp at hs₀
    · rw [alookup_aset_ne _ _ _ _ he] at hlk
      exact hInv.wfConn cid₀ c₀ hlk s₀ hs₀
  · intro t l hlk
    rw [hst] at hlk
    exact hInv.wfTopic t l hlk
  · intro k l hlk
    rw [hst] at hlk
    exact hInv.wfKey k l hlk
  · intro s'
    rw [hcc s', htc s']
    exact hInv.agreeT s'
  · intro s'
    rw [hkc s', htc s']
    exact hInv.agreeK s'
  · intro s'
    rw [htc s']
    exact hInv.uniq s'
  · intro cid₀ c₀ hlk hdead
    rw [hst] at hlk
    dsimp only at hlk
    by_cases he : cid₀ = cid
    · subst he
      rw [alookup_aset_self] at hlk
      have := Option.some.inj hlk
      subst this
      rfl
    · rw [alookup_aset_ne _ _ _ _ he] at hlk
      have hd : ¬ cid₀ ∈ st.live := by
        intro hx
        exact hdead ((hmemlive cid₀).mpr (Or.inl hx))
      exact hInv.deadEmpty cid₀ c₀ hlk hd
  · intro s'
    rw [subLive_iff_connCount, subLive_iff_connCount, hcc s']

theorem enableAccessTracking_spec {st : Registry} {cid k : String} {st' : Registry}
    (hInv : RegInv st) (h : enableAccessTracking st cid k = some st') :
    RegInv st' ∧ Frames st st' ∧ (∀ s', SubLive st' s' ↔ SubLive st s') := by
  unfold enableAccessTracking at h
  cases hC : alookup st.conns cid with
  | none => rw [hC] at h; exact absurd h (by simp)
  | some c =>
    rw [hC] at h
    have hst := Option.some.inj h
    have hsubs : ∀ cid', subsOf st' cid' = subsOf st cid' := by
      intro cid'
      unfold subsOf
      rw [← hst]
      dsimp only [setConn]
      by_cases he : cid' = cid
      · subst he
        rw [alookup_aset_self, hC]
      · rw [alookup_aset_ne _ _ _ _ he]
    have hlive : st'.live = st.live := by rw [← hst]; rfl
    have htops : st'.topicSubs = st.topicSubs := by rw [← hst]; rfl
    have hks : st'.keySubs = st.keySubs := by rw [← hst]; rfl
    have hcc : ∀ s', connCount st' s' = connCount st s' := by
      intro s'
      unfold connCount
      rw [hlive, hsubs s'.conn]
    have hsk : ∀ cid', singleKeyOf st' cid' = singleKeyOf st cid' := by
      intro cid'
      unfold singleKeyOf
      rw [← hst]
      dsimp only [setConn]
      by_cases he : cid' = cid
      · subst he
        rw [alookup_aset_self, hC]
        rfl
      · rw [alookup_aset_ne _ _ _ _ he]
    have hak : akeys st'.conns = akeys st.conns := by
      rw [← hst]
      dsimp only [setConn]
      exact akeys_aset_of_mem _ _ _ (mem_akeys_of_alookup hC)
    refine ⟨⟨?_, ?_, ?_, ?_, ?_, ?_, ?_, ?_⟩, ⟨hlive, hak, ?_, ?_, hsk, ?_⟩, ?_⟩
    · intro x hx
      rw [hak]
      exact hInv.liveSub x (hlive ▸ hx)
    · intro cid₀ c₀ hlk s₀ hs₀
      rw [← hst] at hlk
      dsimp only [setConn] at hlk
      by_cases he : cid₀ = cid
      · subst he
        rw [alookup_aset_self] at hlk
        have := Option.some.inj hlk
        subst this
        exact hInv.wfConn cid₀ c hC s₀ hs₀
      · rw [alookup_aset_ne _ _ _ _ he] at hlk
        exact hInv.wfConn cid₀ c₀ hlk s₀ hs₀
    · intro t l hlk
      rw [htops] at hlk
      exact hInv.wfTopic t l hlk
    · intro k₀ l hlk
      rw [hks] at hlk
      exact hInv.wfKey k₀ l hlk
    · intro s'
      show connCount st' s' = topicCount st' s'
      rw [hcc s']
      unfold topicCount topicEntryD
      rw [htops]
      exact hInv.agreeT s'
    · intro s'
      show keyCount st' s' = topicCount st' s'
      unfold keyCount keyEntryD topicCount topicEntryD
      rw [htops, hks]
      exact hInv.agreeK s'
    · intro s'
      unfold topicCount topicEntryD
      rw [htops]
      exact hInv.uniq s'
    · intro cid₀ c₀ hlk hdead
      rw [← hst] at hlk
      dsimp only [setConn] at hlk
      rw [hlive] at hdead
      by_cases he : cid₀ = cid
      · subst he
        rw [alookup_aset_self] at hlk
        have := Option.some.inj hlk
        subst this
        show c.subscriptions = []
        exact hInv.deadEmpty cid₀ c hC hdead
      · rw [alookup_aset_ne _ _ _ _ he] at hlk
        exact hInv.deadEmpty cid₀ c₀ hlk hdead
    · intro t ht
      rw [htops]
      exact ht
    · intro k₀ hk₀
      rw [hks]
      exact hk₀
    · rw [← hst]
      rfl
    · intro s'
      unfold SubLive
      rw [hlive, hsubs s'.conn]

/-! ## Preservation through the composite operations -/

theorem remAll_frames {l : List Subscription} {st st' : Registry}
    (hInv : RegInv st) (h : remAll st l = some st') : Frames st st' := by
  obtain ⟨_, _, h3, h4, h5, h6, h7, h8⟩ := remAll_spec hInv h
  exact ⟨h3, h4, fun t ht => (h5 t).mpr ht, fun k hk => (h6 k).mpr hk, h7, h8⟩

theorem addSubAll_spec {cid k : String} {ts : List String} :
    ∀ {st st' : Registry}, RegInv st → addSubAll st cid k ts = some st' →
      RegInv st' ∧ Frames st st' := by
  induction ts with
  | nil =>
    intro st st' hInv h
    have hst : st = st' := Option.some.inj h
    subst hst
    exact ⟨hInv, frames_refl st⟩
  | cons t ts ih =>
    intro st st' hInv h
    unfold addSubAll at h
    cases ha : addSubscription st cid k t with
    | none => rw [ha] at h; exact absurd h (by simp)
    | some st₁ =>
      rw [ha] at h
      have h1 := addSubscription_spec hInv ha
      obtain ⟨hInv₂, hfr₂⟩ := ih h1.1 h
      exact ⟨hInv₂, frames_trans (addSubscription_frames hInv ha) hfr₂⟩

theorem topicAddedGo_spec {k t : String} {ids : List String} :
    ∀ {st st' : Registry} {acts : List TraceStep}, RegInv st →
      topicAddedGo st k t ids = some (st', acts) → RegInv st' ∧ Frames st st' := by
  induction ids with
  | nil =>
    intro st st' acts hInv h
    unfold topicAddedGo at h
    have := Option.some.inj h
    have hst : st = st' := congrArg Prod.fst this
    subst hst
    exact ⟨hInv, frames_refl st⟩
  | cons cid ids ih =>
    intro st st' acts hInv h
    unfold topicAddedGo at h
    cases hl : liveConn st cid with
    | none => rw [hl] at h; exact absurd h (by simp)
    | some c =>
      rw [hl] at h
      dsimp only at h
      cases ha : addSubscription st cid k t with
      | none => rw [ha] at h; exact absurd h (by simp)
      | some st₁ =>
        rw [ha] at h
        dsimp only at h
        cases hg : topicAddedGo st₁ k t ids with
        | none => rw [hg] at h; exact absurd h (by simp)
        | some p =>
          obtain ⟨st₂, acts₂⟩ := p
          rw [hg] at h
          have hst : st₂ = st' := congrArg Prod.fst (Option.some.inj h)
          subst hst
          have h1 := addSubscription_spec hInv ha
          obtain ⟨hInv₂, hfr₂⟩ := ih h1.1 hg
          exact ⟨hInv₂, frames_trans (addSubscription_frames hInv ha) hfr₂⟩

/-- The state component of the WebSocket delete-and-notify loop is the plain
fold of removals. -/
theorem delNotifyGo_state {l : List Subscription} :
    ∀ {st st' : Registry} {acts : List TraceStep},
      delNotifyGo st l = some (st', acts) → remAll st l = some st' := by
  induction l with
  | nil =>
    intro st st' acts h
    unfold delNotifyGo at h
    have := Option.some.inj h
    have hst : st = st' := congrArg Prod.fst this
    subst hst
    rfl
  | cons s rest ih =>
    intro st st' acts h
    unfold delNotifyGo at h
    cases hc : alookup st.conns s.conn with
    | none => rw [hc] at h; exact absurd h (by simp)
    | some c =>
      rw [hc] at h
      dsimp only at h
      cases hr : removeSubscription st s with
      | none => rw [hr] at h; exact absurd h (by simp)
      | some p =>
        obtain ⟨st₁, ok⟩ := p
        rw [hr] at h
        dsimp only at h
        cases hg : delNotifyGo st₁ rest with
        | none => rw [hg] at h; exact absurd h (by simp)
        | some q =>
          obtain ⟨st₂, acts₂⟩ := q
          rw [hg] at h
          have := Option.some.inj h
          have hst : st₂ = st' := congrArg Prod.fst this
          subst hst
          unfold remAll
          rw [hr]
          exact ih hg

/-- The state component of the SSE delete-and-notify loop is the same fold. -/
theorem sseDelNotifyGo_state {l : List Subscription} :
    ∀ {st st' : Registry} {acts : List TraceStep},
      sseDelNotifyGo st l = some (st', acts) → remAll st l = some st' := by
  induction l with
  | nil =>
    intro st st' acts h
    unfold sseDelNotifyGo at h
    have := Option.some.inj h
    have hst : st = st' := congrArg Prod.fst this
    subst hst
    rfl
  | cons s rest ih =>
    intro st st' acts h
    unfold sseDelNotifyGo at h
    cases hc : alookup st.conns s.conn with
    | none => rw [hc] at h; exact absurd h (by simp)
    | some c =>
      rw [hc] at h
      dsimp only at h
      cases hr : removeSubscription st s with
      | none => rw [hr] at h; exact absurd h (by simp)
      | some p =>
        obtain ⟨st₁, ok⟩ := p
        rw [hr] at h
        dsimp only at h
        cases hg : sseDelNotifyGo st₁ rest with
        | none => rw [hg] at h; exact absurd h (by simp)
        | some q =>
          obtain ⟨st₂, acts₂⟩ := q
          rw [hg] at h
          have := Option.some.inj h
          have hst : st₂ = st' := congrArg Prod.fst this
          subst hst
          unfold remAll
          rw [hr]
          exact ih hg

theorem deleteAndNotify_state {st : Registry} {subs : List Subscription}
    {st' : Registry} {acts : List TraceStep}
    (h : deleteAndNotifySubscriptions st subs = some (st', acts)) :
    remAll st subs = some st' ∨ (st' = st ∧ subs = []) := by
  unfold deleteAndNotifySubscriptions at h
  by_cases hz : countUniqueConnectionsInSubscriptions subs = 0
  · rw [if_pos hz] at h
    right
    have := Option.some.inj h
    refine ⟨(congrArg Prod.fst this).symm, ?_⟩
    unfold countUniqueConnectionsInSubscriptions at hz
    have := List.length_eq_zero.mp hz
    have h2 := (dedupFirst_eq_nil_iff _).mp this
    exact List.map_eq_nil_iff.mp h2
  · rw [if_neg hz] at h
    exact Or.inl (delNotifyGo_state h)

theorem removeConnectionSubs_spec {st : Registry} {cid k : String}
    {topic : Option String} {n : Nat} {st' : Registry} (hInv : RegInv st)
    (h : removeConnectionSubscriptionsByKeyAndTopic st cid k topic = some (n, st')) :
    RegInv st' ∧ Frames st st' := by
  unfold removeConnectionSubscriptionsByKeyAndTopic at h
  cases hK : alookup st.keySubs k with
  | none =>
    rw [hK] at h
    have := Option.some.inj h
    have hst : st = st' := congrArg Prod.snd this
    subst hst
    exact ⟨hInv, frames_refl st⟩
  | some kl =>
    rw [hK] at h
    dsimp only at h
    cases hr : remAll st ((getSubscriptionsByKeyAndTopic st k topic).filter
        (fun s => s.conn == cid)) with
    | none => rw [hr] at h; exact absurd h (by simp)
    | some st₁ =>
      rw [hr] at h
      dsimp only [Option.map] at h
      have := Option.some.inj h
      have hst : st₁ = st' := congrArg Prod.snd this
      subst hst
      exact ⟨(remAll_spec hInv hr).1, remAll_frames hInv hr⟩

theorem exec_inv {st : Registry} {op : Op} {st' : Registry}
    (hInv : RegInv st) (h : exec st op = some st') : RegInv st' := by
  cases op with
  | register cid sk =>
    unfold exec at h
    dsimp only at h
    cases hr : registerConnectionCore st cid sk with
    | none => rw [hr] at h; simp at h
    | some p =>
      obtain ⟨st₁, cid₁⟩ := p
      rw [hr] at h
      dsimp only [Option.map] at h
      have hst : st₁ = st' := Option.some.inj h
      subst hst
      exact (registerConnectionCore_spec hInv hr).1
  | addSub cid k t =>
    exact (addSubscription_spec hInv h).1
  | removeSub s =>
    unfold exec at h
    dsimp only at h
    cases hr : removeSubscription st s with
    | none => rw [hr] at h; simp at h
    | some p =>
      obtain ⟨st₁, b⟩ := p
      rw [hr] at h
      dsimp only [Option.map] at h
      have hst : st₁ = st' := Option.some.inj h
      subst hst
      exact (removeSubscription_spec hInv hr).2.2.2
  | removeByKeyAndTopic cid k topt =>
    unfold exec at h
    dsimp only at h
    cases hr : removeConnectionSubscriptionsByKeyAndTopic st cid k topt with
    | none => rw [hr] at h; simp at h
    | some p =>
      obtain ⟨n, st₁⟩ := p
      rw [hr] at h
      dsimp only [Option.map] at h
      have hst : st₁ = st' := Option.some.inj h
      subst hst
      exact (removeConnectionSubs_spec hInv hr).1
  | topicAdded k t =>
    unfold exec handleTopicAdded at h
    dsimp only at h
    cases hr : topicAddedGo st k t (getAccessTrackingConnections st k) with
    | none => rw [hr] at h; simp at h
    | some p =>
      obtain ⟨st₁, acts⟩ := p
      rw [hr] at h
      dsimp only [Option.map] at h
      have hst : st₁ = st' := Option.some.inj h
      subst hst
      exact (topicAddedGo_spec hInv hr).1
  | topicRemoved k t =>
    unfold exec handleTopicRemoved at h
    dsimp only at h
    cases hr : deleteAndNotifySubscriptions st
        (getSubscriptionsByKeyAndTopic st k (some t)) with
    | none => rw [hr] at h; simp at h
    | some p =>
      obtain ⟨st₁, acts⟩ := p
      rw [hr] at h
      dsimp only [Option.map] at h
      have hst : st₁ = st' := Option.some.inj h
      subst hst
      rcases deleteAndNotify_state hr with h1 | ⟨h1, _⟩
      · exact (remAll_spec hInv h1).1
      · exact h1 ▸ hInv
  | topicDeleted p =>
    unfold exec handleTopicDeleted at h
    dsimp only at h
    cases hr : deleteAndNotifySubscriptions st (getSubscriptionsByTopicPrefix st p) with
    | none => rw [hr] at h; simp at h
    | some q =>
      obtain ⟨st₁, acts⟩ := q
      rw [hr] at h
      dsimp only [Option.map] at h
      have hst : st₁ = st' := Option.some.inj h
      subst hst
      rcases deleteAndNotify_state hr with h1 | ⟨h1, _⟩
      · exact (remAll_spec hInv h1).1
      · exact h1 ▸ hInv
  | deregister cid =>
    exact deregisterConnection_inv hInv h
  | enableTracking cid k =>
    exact (enableAccessTracking_spec hInv h).1

theorem execs_inv {ops : List Op} :
    ∀ {st st' : Registry}, RegInv st → execs st ops = some st' → RegInv st' := by
  induction ops with
  | nil =>
    intro st st' hInv h
    have hst : st = st' := Option.some.inj h
    subst hst
    exact hInv
  | cons op ops ih =>
    intro st st' hInv h
    unfold execs at h
    cases he : exec st op with
    | none => rw [he] at h; simp at h
    | some st₁ =>
      rw [he] at h
      exact ih (exec_inv hInv he) h

/-- Every state reachable from the empty registry satisfies the invariant. -/
theorem inv_of_reachable {ops : List Op} {st : Registry}
    (h : execs initRegistry ops = some st) : RegInv st :=
  execs_inv regInv_init h

/-! ## Claim C1: index agreement over all reachable states -/

/-- The index-agreement property as the specification states it: every live
subscription appears exactly once in its connection's array, once in its
topic's entry and once in its key's entry, and no index entry holds a
subscription that is not live. -/
def IndexAgreementClaim (st : Registry) : Prop :=
  (∀ s, SubLive st s →
    countSub s (subsOf st s.conn) = 1 ∧
    countSub s (topicEntryD st s.topic) = 1 ∧
    countSub s (keyEntryD st s.apiKey) = 1) ∧
  (∀ cid ∈ st.live, ∀ s ∈ subsOf st cid, SubLive st s) ∧
  (∀ t l, alookup st.topicSubs t = some l → ∀ s ∈ l, SubLive st s) ∧
  (∀ k l, alookup st.keySubs k = some l → ∀ s ∈ l, SubLive st s)

theorem agreement_of_inv {st : Registry} (hInv : RegInv st) :
    IndexAgreementClaim st := by
  refine ⟨?_, ?_, ?_, ?_⟩
  · intro s hs
    have hcpos : 0 < connCount st s := (subLive_iff_connCount st s).mp hs
    have h1 := hInv.agreeT s
    have h2 := hInv.agreeK s
    have h3 := hInv.uniq s
    have hcs : connCount st s = countSub s (subsOf st s.conn) := by
      unfold connCount
      rw [if_pos hs.1]
    unfold topicCount at h1 h2 h3
    unfold keyCount at h2
    rw [hcs] at hcpos h1
    refine ⟨by omega, by omega, by omega⟩
  · intro cid hcid s hs
    have hsc := wf_subsOf hInv cid s hs
    constructor
    · rw [hsc]
      exact hcid
    · rw [hsc]
      exact hs
  · intro t l hlk s hs
    have hst : s.topic = t := hInv.wfTopic t l hlk s hs
    have htpos : 0 < topicCount st s := by
      unfold topicCount topicEntryD
      rw [hst, hlk]
      show 0 < countSub s l
      rw [countSub_pos_iff_mem]
      exact hs
    rw [subLive_iff_connCount]
    have := hInv.agreeT s
    omega
  · intro k l hlk s hs
    have hsk : s.apiKey = k := hInv.wfKey k l hlk s hs
    have hkpos : 0 < keyCount st s := by
      unfold keyCount keyEntryD
      rw [hsk, hlk]
      show 0 < countSub s l
      rw [countSub_pos_iff_mem]
      exact hs
    rw [subLive_iff_connCount]
    have h1 := hInv.agreeT s
    have h2 := hInv.agreeK s
    omega

/-- C1.  Index agreement invariant: in every registry state reachable from
the empty registry by any sequence of the operations registerConnection,
addSubscription, removeSubscription,
removeConnectionSubscriptionsByKeyAndTopic, handleTopicAdded,
handleTopicRemoved, handleTopicDeleted and deregisterConnection (plus the
harmless enableAccessTracking), every live Subscription appears exactly once
in its connection's subscription list, exactly once in the per-topic index
entry for its topic and exactly once in the per-key index entry for its key,
and no index entry contains a Subscription that is not live. -/
theorem c1_index_agreement (ops : List Op) (st : Registry)
    (h : execs initRegistry ops = some st) : IndexAgreementClaim st :=
  agreement_of_inv (inv_of_reachable h)

def c1WitnessOps : List Op :=
  [Op.register "c1" false, Op.addSub "c1" "k1" "/t1", Op.addSub "c1" "k2" "/t2"]

def c1WitnessState : Registry := (execs initRegistry c1WitnessOps).getD initRegistry

theorem c1_index_agreement_witness : IndexAgreementClaim c1WitnessState :=
  c1_index_agreement c1WitnessOps c1WitnessState (by decide)

/-! ## Claim C10: unguarded index lookups in removeSubscription -/

def c10FaultState : Registry :=
  (execs initRegistry [Op.register "c1" false]).getD initRegistry

def c10FaultSub : Subscription := ⟨"c1", "k1", "/t1"⟩

def c10LiveOps : List Op := [Op.register "c1" false, Op.addSub "c1" "k1" "/t1"]

def c10LiveState : Registry := (execs initRegistry c10LiveOps).getD initRegistry

/-- C10.  `removeSubscription` reads `topicSubscriptions[topic]` and
`keySubscriptions[apiKey]` without a guard: on a registered connection with
no entry for the topic the call faults (`none`, a TypeError in the source)
instead of returning false; and whenever the argument is a live subscription
of a reachable registry, both entries exist and the fault branch is
unreachable. -/
theorem c10_remove_unguarded_lookup :
    removeSubscription c10FaultState c10FaultSub = none ∧
    (∀ (ops : List Op) (st : Registry) (s : Subscription),
      execs initRegistry ops = some st → SubLive st s →
      (removeSubscription st s).isSome = true) := by
  constructor
  · decide
  · intro ops st s h hl
    have hInv := inv_of_reachable h
    obtain ⟨h1, h2, h3⟩ := subLive_entries hInv hl
    exact removeSubscription_isSome ((alookup_isSome_iff _ _).mpr h1) h2 h3

theorem c10_witness :
    (removeSubscription c10LiveState ⟨"c1", "k1", "/t1"⟩).isSome = true :=
  c10_remove_unguarded_lookup.2 c10LiveOps c10LiveState ⟨"c1", "k1", "/t1"⟩
    (by decide) (by decide)

/-! ## Claim C4: the removeSubscription contract -/

/-- C4.  On every reachable registry, a completed `removeSubscription(sub)`
clears the explicit access-tracking flag for `(sub.connection, sub.apiKey)`,
removes the triple from the connection's list and from the per-topic and
per-key entries, returns true exactly when a removal happened in the
connection's list, and decrements the live-subscription counter iff it
returns true. -/
theorem c4_removeSubscription_contract (ops : List Op) (st : Registry)
    (s : Subscription) (st' : Registry) (b : Bool)
    (hre : execs initRegistry ops = some st)
    (h : removeSubscription st s = some (st', b)) :
    (∀ c', alookup st'.conns s.conn = some c' → ¬ s.apiKey ∈ c'.accessTracking) ∧
    (¬ s ∈ subsOf st' s.conn ∧ ¬ s ∈ topicEntryD st' s.topic ∧
      ¬ s ∈ keyEntryD st' s.apiKey) ∧
    (b = true ↔ s ∈ subsOf st s.conn) ∧
    st'.numSubscriptions = st.numSubscriptions - (if b then 1 else 0) := by
  have hInv := inv_of_reachable hre
  obtain ⟨hcc, htc, hkc, hInv'⟩ := removeSubscription_spec hInv h
  obtain ⟨c, tl, kl, hC, hT, hK, hb, hconns, htop, hkey, hlive, hnc, hns⟩ :=
    removeSubscription_elim h
  refine ⟨(removeSubscription_tracking h).1, ⟨?_, ?_, ?_⟩,
    removeSubscription_removed_iff hInv h, hns⟩
  · by_cases hm : s.conn ∈ st.live
    · intro hmem
      have hpos : 0 < countSub s (subsOf st' s.conn) :=
        (countSub_pos_iff_mem s _).mpr hmem
      have hm' : s.conn ∈ st'.live := by
        rw [hlive]
        exact hm
      have h1 : connCount st' s = countSub s (subsOf st' s.conn) := by
        unfold connCount
        rw [if_pos hm']
      have h2 := hcc s
      rw [if_pos rfl] at h2
      have h3 := hInv.agreeT s
      have h4 := hInv.uniq s
      omega
    · have hce : c.subscriptions = [] := hInv.deadEmpty s.conn c hC hm
      intro hmem
      have hsub : subsOf st' s.conn =
          spliceFirst (fun x => x.apiKey == s.apiKey && x.topic == s.topic)
            c.subscriptions := by
        unfold subsOf
        rw [hconns, alookup_aset_self]
      rw [hsub, hce] at hmem
      simp [spliceFirst] at hmem
  · have h2 := htc s
    rw [if_pos rfl] at h2
    have h4 := hInv.uniq s
    intro hmem
    have hpos : 0 < topicCount st' s := by
      unfold topicCount
      rw [countSub_pos_iff_mem]
      exact hmem
    unfold topicCount at h2 h4 hpos
    omega
  · have h2 := hkc s
    rw [if_pos rfl] at h2
    have h3 := hInv.agreeK s
    have h4 := hInv.uniq s
    intro hmem
    have hpos : 0 < keyCount st' s := by
      unfold keyCount
      rw [countSub_pos_iff_mem]
      exact hmem
    omega

def c4Ops : List Op := [Op.register "c1" false, Op.addSub "c1" "k1" "/t1"]

def c4State : Registry := (execs initRegistry c4Ops).getD initRegistry

def c4Sub : Subscription := ⟨"c1", "k1", "/t1"⟩

def c4After : Registry :=
  ((removeSubscription c4State c4Sub).getD (c4State, false)).1

theorem c4_witness : ¬ c4Sub ∈ subsOf c4After c4Sub.conn ∧
    c4After.numSubscriptions = c4State.numSubscriptions - 1 :=
  have hc := c4_removeSubscription_contract c4Ops c4State c4Sub c4After true
    (by decide) (by decide)
  ⟨hc.2.1.1, hc.2.2.2⟩

/-! ## Claim C3: the add/remove round trip -/

theorem spliceFirst_append_of_no_match (p : Subscription → Bool)
    (l : List Subscription) (y : Subscription)
    (h : ∀ x ∈ l, ¬ p x = true) (hy : p y = true) :
    spliceFirst p (l ++ [y]) = l := by
  induction l with
  | nil => simp [spliceFirst, hy]
  | cons x l ih =>
    have hx := h x (by simp)
    show spliceFirst p (x :: (l ++ [y])) = x :: l
    rw [spliceFirst, if_neg hx, ih (fun z hz => h z (by simp [hz]))]

/-- Equality of registries as the spec observes them: the three indexes read
entry-wise (a present-but-empty entry reads as an absent one, as everywhere
in the source) and the two counters. -/
def RegistryObsEq (a b : Registry) : Prop :=
  (∀ cid, subsOf a cid = subsOf b cid) ∧
  (∀ t, topicEntryD a t = topicEntryD b t) ∧
  (∀ k, keyEntryD a k = keyEntryD b k) ∧
  a.live = b.live ∧
  a.numConnections = b.numConnections ∧
  a.numSubscriptions = b.numSubscriptions

def c3Ops : List Op := [Op.register "c1" false, Op.addSub "c1" "k1" "/t1"]

def c3State : Registry := (execs initRegistry c3Ops).getD initRegistry

/-- C3 counterexample.  In the reachable state `c3State` the triple
`("c1", "k1", "/t1")` is already subscribed, so `addSubscription` is a
duplicate no-op while `removeSubscription` still removes the pre-existing
subscription: the round trip ends with 0 subscriptions where the pre-state
had 1, refuting the claim that it restores the registry for every state. -/
theorem c3_counterexample :
    c3State.numSubscriptions = 1 ∧
    ((addSubscription c3State "c1" "k1" "/t1").bind
      (fun st1 => (removeSubscription st1 ⟨"c1", "k1", "/t1"⟩).map
        (fun p => p.1.numSubscriptions))) = some 0 := by
  constructor
  · decide
  · decide

/-- C3 (amended).  On every reachable registry state, for a registered
connection and a triple that is not already live, `addSubscription(c,k,t)`
followed by `removeSubscription` of the same triple succeeds and restores
the three indexes (read entry-wise) and both counters to their pre-state
values. -/
theorem c3_round_trip (ops : List Op) (st : Registry) (cid k t : String)
    (h : execs initRegistry ops = some st) (hcid : cid ∈ st.live)
    (hfresh : ¬ SubLive st ⟨cid, k, t⟩) :
    ∃ st₁ st₂, addSubscription st cid k t = some st₁ ∧
      removeSubscription st₁ ⟨cid, k, t⟩ = some (st₂, true) ∧
      RegistryObsEq st₂ st := by
  have hInv := inv_of_reachable h
  have htc0 : topicCount st ⟨cid, k, t⟩ = 0 := by
    have h1 := hInv.agreeT ⟨cid, k, t⟩
    have h2 := (subLive_iff_connCount st ⟨cid, k, t⟩).not.mp hfresh
    omega
  have hnotin : ¬ (⟨cid, k, t⟩ : Subscription) ∈ topicEntryD st t := by
    rw [← countSub_eq_zero_iff]
    exact htc0
  have hdup : ∀ x ∈ topicEntryD st t, ¬ (x.conn == cid && x.apiKey == k) = true := by
    intro x hx hpx
    have hwf : ∀ y ∈ topicEntryD st t, y.topic = (⟨cid, k, t⟩ : Subscription).topic :=
      wf_topicEntryD hInv t
    have := (predTopic_iff hwf x hx).mp hpx
    exact hnotin (this ▸ hx)
  obtain ⟨c, hc⟩ : ∃ c, alookup st.conns cid = some c := by
    have := (alookup_isSome_iff st.conns cid).mpr (hInv.liveSub cid hcid)
    exact Option.isSome_iff_exists.mp this
  have hadd := addSubscription_fresh hdup hcid hc
  set st₁ := addResult st cid k t c with hst₁
  have hnotinC : ¬ (⟨cid, k, t⟩ : Subscription) ∈ c.subscriptions := by
    intro hm
    apply hfresh
    constructor
    · exact hcid
    · show (⟨cid, k, t⟩ : Subscription) ∈ subsOf st cid
      unfold subsOf
      rw [hc]
      exact hm
  have hnotinK : ¬ (⟨cid, k, t⟩ : Subscription) ∈ keyEntryD st k := by
    intro hm
    have hkpos : 0 < keyCount st ⟨cid, k, t⟩ := by
      unfold keyCount
      rw [countSub_pos_iff_mem]
      exact hm
    have := hInv.agreeK ⟨cid, k, t⟩
    omega
  have hC₁ : alookup st₁.conns cid = some
      { c with subscriptions := c.subscriptions ++ [⟨cid, k, t⟩] } := by
    rw [hst₁]
    unfold addResult
    dsimp only
    exact alookup_aset_self _ _ _
  have hT₁ : alookup st₁.topicSubs t = some (topicEntryD st t ++ [⟨cid, k, t⟩]) := by
    rw [hst₁]
    unfold addResult
    dsimp only
    exact alookup_aset_self _ _ _
  have hK₁ : alookup st₁.keySubs k = some (keyEntryD st k ++ [⟨cid, k, t⟩]) := by
    rw [hst₁]
    unfold addResult
    dsimp only
    exact alookup_aset_self _ _ _
  have hsome : (removeSubscription st₁ ⟨cid, k, t⟩).isSome :=
    removeSubscription_isSome (by rw [show (⟨cid, k, t⟩ : Subscription).conn = cid from rfl, hC₁]; rfl)
      (by rw [show (⟨cid, k, t⟩ : Subscription).topic = t from rfl, hT₁]; rfl)
      (by rw [show (⟨cid, k, t⟩ : Subscription).apiKey = k from rfl, hK₁]; rfl)
  obtain ⟨p, hp⟩ := Option.isSome_iff_exists.mp hsome
  obtain ⟨st₂, b⟩ := p
  obtain ⟨c', tl', kl', hC', hT', hK', hb, hconns, htop, hkey, hlive, hnc, hns⟩ :=
    removeSubscription_elim hp
  have hcc' : c' = { c with subscriptions := c.subscriptions ++ [⟨cid, k, t⟩] } := by
    rw [show (⟨cid, k, t⟩ : Subscription).conn = cid from rfl] at hC'
    rw [hC₁] at hC'
    exact (Option.some.inj hC').symm
  have htl' : tl' = topicEntryD st t ++ [⟨cid, k, t⟩] := by
    rw [show (⟨cid, k, t⟩ : Subscription).topic = t from rfl] at hT'
    rw [hT₁] at hT'
    exact (Option.some.inj hT').symm
  have hkl' : kl' = keyEntryD st k ++ [⟨cid, k, t⟩] := by
    rw [show (⟨cid, k, t⟩ : Subscription).apiKey = k from rfl] at hK'
    rw [hK₁] at hK'
    exact (Option.some.inj hK').symm
  have hbtrue : b = true := by
    rw [hb, hcc']
    dsimp only
    rw [List.any_eq_true]
    exact ⟨⟨cid, k, t⟩, by simp, by simp⟩
  subst hbtrue
  have hwfc : ∀ x ∈ c.subscriptions, x.conn = cid := hInv.wfConn cid c hc
  have hspliceC : spliceFirst
      (fun x => x.apiKey == (⟨cid, k, t⟩ : Subscription).apiKey &&
        x.topic == (⟨cid, k, t⟩ : Subscription).topic)
      (c.subscriptions ++ [⟨cid, k, t⟩]) = c.subscriptions := by
    apply spliceFirst_append_of_no_match
    · intro x hx hpx
      have := (predConn_iff hwfc rfl x hx).mp hpx
      exact hnotinC (this ▸ hx)
    · simp
  have hwft : ∀ x ∈ topicEntryD st t, x.topic = (⟨cid, k, t⟩ : Subscription).topic :=
    wf_topicEntryD hInv t
  have hspliceT : spliceFirst
      (fun x => x.conn == (⟨cid, k, t⟩ : Subscription).conn &&
        x.apiKey == (⟨cid, k, t⟩ : Subscription).apiKey)
      (topicEntryD st t ++ [⟨cid, k, t⟩]) = topicEntryD st t := by
    apply spliceFirst_append_of_no_match
    · intro x hx hpx
      have := (predTopic_iff hwft x hx).mp hpx
      exact hnotin (this ▸ hx)
    · simp
  have hwfk : ∀ x ∈ keyEntryD st k, x.apiKey = (⟨cid, k, t⟩ : Subscription).apiKey :=
    wf_keyEntryD hInv k
  have hspliceK : spliceFirst
      (fun x => x.conn == (⟨cid, k, t⟩ : Subscription).conn &&
        x.topic == (⟨cid, k, t⟩ : Subscription).topic)
      (keyEntryD st k ++ [⟨cid, k, t⟩]) = keyEntryD st k := by
    apply spliceFirst_append_of_no_match
    · intro x hx hpx
      have := (predKey_iff hwfk x hx).mp hpx
      exact hnotinK (this ▸ hx)
    · simp
  refine ⟨st₁, st₂, hadd, hp, ?_, ?_, ?_, ?_, ?_, ?_⟩
  · intro cid'
    by_cases he : cid' = cid
    · subst he
      have h1 : subsOf st₂ cid' = spliceFirst
          (fun x => x.apiKey == (⟨cid', k, t⟩ : Subscription).apiKey &&
            x.topic == (⟨cid', k, t⟩ : Subscription).topic)
          (c.subscriptions ++ [⟨cid', k, t⟩]) := by
        unfold subsOf
        rw [hconns]
        rw [show (⟨cid', k, t⟩ : Subscription).conn = cid' from rfl]
        rw [alookup_aset_self, hcc']
      rw [h1, hspliceC]
      unfold subsOf
      rw [hc]
    · have h1 : subsOf st₂ cid' = subsOf st₁ cid' := by
        unfold subsOf
        rw [hconns]
        rw [show (⟨cid, k, t⟩ : Subscription).conn = cid from rfl]
        rw [alookup_aset_ne _ _ _ _ he]
      have h2 : subsOf st₁ cid' = subsOf st cid' := by
        unfold subsOf
        rw [hst₁]
        unfold addResult
        dsimp only
        rw [alookup_aset_ne _ _ _ _ he]
      rw [h1, h2]
  · intro t'
    by_cases he : t' = t
    · subst he
      have h1 : topicEntryD st₂ t' = spliceFirst
          (fun x => x.conn == (⟨cid, k, t'⟩ : Subscription).conn &&
            x.apiKey == (⟨cid, k, t'⟩ : Subscription).apiKey) tl' := by
        unfold topicEntryD
        rw [htop]
        rw [show (⟨cid, k, t'⟩ : Subscription).topic = t' from rfl]
        rw [alookup_aset_self]
        rfl
      rw [h1, htl', hspliceT]
    · have h1 : topicEntryD st₂ t' = topicEntryD st₁ t' := by
        unfold topicEntryD
        rw [htop]
        rw [show (⟨cid, k, t⟩ : Subscription).topic = t from rfl]
        rw [alookup_aset_ne _ _ _ _ he]
      have h2 : topicEntryD st₁ t' = topicEntryD st t' := by
        unfold topicEntryD
        rw [hst₁]
        unfold addResult
        dsimp only
        rw [alookup_aset_ne _ _ _ _ he]
      rw [h1, h2]
  · intro k'
    by_cases he : k' = k
    · subst he
      have h1 : keyEntryD st₂ k' = spliceFirst
          (fun x => x.conn == (⟨cid, k', t⟩ : Subscription).conn &&
            x.topic == (⟨cid, k', t⟩ : Subscription).topic) kl' := by
        unfold keyEntryD
        rw [hkey]
        rw [show (⟨cid, k', t⟩ : Subscription).apiKey = k' from rfl]
        rw [alookup_aset_self]
        rfl
      rw [h1, hkl', hspliceK]
    · have h1 : keyEntryD st₂ k' = keyEntryD st₁ k' := by
        unfold keyEntryD
        rw [hkey]
        rw [show (⟨cid, k, t⟩ : Subscription).apiKey = k from rfl]
        rw [alookup_aset_ne _ _ _ _ he]
      have h2 : keyEntryD st₁ k' = keyEntryD st k' := by
        unfold keyEntryD
        rw [hst₁]
        unfold addResult
        dsimp only
        rw [alookup_aset_ne _ _ _ _ he]
      rw [h1, h2]
  · rw [hlive, hst₁]
    rfl
  · rw [hnc, hst₁]
    rfl
  · rw [hns, hst₁]
    show st.numSubscriptions + 1 - 1 = st.numSubscriptions
    omega

def c3FreshOps : List Op := [Op.register "c1" false, Op.addSub "c1" "k1" "/t1"]

def c3FreshState : Registry := (execs initRegistry c3FreshOps).getD initRegistry

theorem c3_round_trip_witness :
    ∃ st₁ st₂, addSubscription c3FreshState "c1" "k2" "/t2" = some st₁ ∧
      removeSubscription st₁ ⟨"c1", "k2", "/t2"⟩ = some (st₂, true) ∧
      RegistryObsEq st₂ c3FreshState :=
  c3_round_trip c3FreshOps c3FreshState "c1" "k2" "/t2" (by decide) (by decide)
    (by decide)

/-! ## Claim C7: deregisterConnection on a detached connection -/

def c7Ops : List Op := [Op.register "c1" false, Op.deregister "c1", Op.deregister "c1"]

def c7OnceOps : List Op := [Op.register "c1" false, Op.deregister "c1"]

/-- C7 counterexample.  After registering and deregistering a connection the
live-connection counter is 0; a second `deregisterConnection` on the now
detached connection runs `closeConnection` again, whose unguarded
`numConnections--` drives the counter to -1.  The second call therefore does
not leave the registry unchanged, refuting idempotence. -/
theorem c7_counterexample :
    (execs initRegistry c7OnceOps).map (fun st => st.numConnections) = some 0 ∧
    (execs initRegistry c7Ops).map (fun st => st.numConnections) = some (-1) := by
  constructor
  · decide
  · decide

/-- C7 (amended).  A second `deregisterConnection` on a detached connection
(heap object present with an empty subscription list, id absent from the
live map) leaves the heap, the live map, all three indexes and the
subscription counter unchanged, but decrements the live-connection counter
again: the operation is not idempotent on the counter. -/
theorem c7_deregister_detached (st : Registry) (cid : String) (c : Conn)
    (hc : alookup st.conns cid = some c) (hsubs : c.subscriptions = [])
    (hdead : ¬ cid ∈ st.live) :
    deregisterConnection st cid =
      some { st with numConnections := st.numConnections - 1 } := by
  unfold deregisterConnection
  rw [hc]
  dsimp only
  rw [hsubs]
  show Option.map _ (some st) = _
  dsimp only [Option.map]
  unfold closeConnection
  have hfil : st.live.filter (fun x => ¬ x == cid) = st.live := by
    apply List.filter_eq_self.mpr
    intro x hx
    simp only [beq_iff_eq, decide_eq_true_eq]
    intro he
    exact hdead (he ▸ hx)
  rw [hfil]

def c7DetachedState : Registry := (execs initRegistry c7OnceOps).getD initRegistry

theorem c7_witness : deregisterConnection c7DetachedState "c1" =
    some { c7DetachedState with
      numConnections := c7DetachedState.numConnections - 1 } :=
  c7_deregister_detached c7DetachedState "c1" ⟨false, [], []⟩ (by decide) (by decide)
    (by decide)

/-! ## Claim C2: the delete-and-notify protocol -/

/-- The apiKey field the WebSocket variant puts into a `topicRemoved`
payload: omitted when the connection is single-key or the key is the
literal `"public"` (`connections.js` 305-310). -/
def wsRemovedKeyField (st : Registry) (s : Subscription) : Option String :=
  match singleKeyOf st s.conn with
  | none => none
  | some sk => if sk || s.apiKey == "public" then none else some s.apiKey

/-- The apiKey field the SSE variant puts into a `topicRemoved` payload:
omitted only for single-key connections (`connections.js` 757-761). -/
def sseRemovedKeyField (st : Registry) (s : Subscription) : Option String :=
  match singleKeyOf st s.conn with
  | none => none
  | some sk => if sk then none else some s.apiKey

/-- The trace the delete-and-notify protocol must produce: for each
subscription in order, first the removal, then the `topicRemoved` write to
its connection. -/
def notifyTrace (field : Subscription → Option String) :
    List Subscription → List TraceStep
  | [] => []
  | s :: l =>
    TraceStep.removed s true ::
      TraceStep.sent s.conn (EventMsg.topicRemoved (field s) s.topic) ::
      notifyTrace field l

theorem notifyTrace_congr {f g : Subscription → Option String} :
    ∀ {l : List Subscription}, (∀ x ∈ l, f x = g x) →
      notifyTrace f l = notifyTrace g l := by
  intro l
  induction l with
  | nil => intro _; rfl
  | cons s l ih =>
    intro h
    unfold notifyTrace
    rw [h s (by simp), ih (fun x hx => h x (by simp [hx]))]

theorem countUnique_eq_zero_iff (subs : List Subscription) :
    countUniqueConnectionsInSubscriptions subs = 0 ↔ subs = [] := by
  unfold countUniqueConnectionsInSubscriptions
  rw [List.length_eq_zero, dedupFirst_eq_nil_iff, List.map_eq_nil_iff]

theorem delNotifyGo_total {l : List Subscription} :
    ∀ {st : Registry}, RegInv st → (∀ s ∈ l, SubLive st s) → l.Nodup →
      ∃ st', remAll st l = some st' ∧
        delNotifyGo st l = some (st', notifyTrace (wsRemovedKeyField st) l) := by
  induction l with
  | nil =>
    intro st _ _ _
    exact ⟨st, rfl, rfl⟩
  | cons s rest ih =>
    intro st hInv hlive hnd
    have hsl := hlive s (by simp)
    obtain ⟨hcm, hct, hck⟩ := subLive_entries hInv hsl
    obtain ⟨c, hc⟩ := Option.isSome_iff_exists.mp ((alookup_isSome_iff _ _).mpr hcm)
    have hsome := removeSubscription_isSome ((alookup_isSome_iff _ _).mpr hcm) hct hck
    obtain ⟨p, hr⟩ := Option.isSome_iff_exists.mp hsome
    obtain ⟨st₁, b⟩ := p
    have hInv₁ := (removeSubscription_spec hInv hr).2.2.2
    have hbt : b = true := by
      rw [removeSubscription_removed_iff hInv hr]
      exact hsl.2
    subst hbt
    have hlift := removeSubscription_subLive hInv hr
    have hnotin : ¬ s ∈ rest := (List.nodup_cons.mp hnd).1
    have hlive₁ : ∀ x ∈ rest, SubLive st₁ x := by
      intro x hx
      rw [hlift x]
      exact ⟨hlive x (by simp [hx]), fun he => hnotin (he ▸ hx)⟩
    obtain ⟨st₂, hrem₂, hgo₂⟩ := ih hInv₁ hlive₁ (List.nodup_cons.mp hnd).2
    have hsk := (removeSubscription_frame hr).2.2.2.2.1
    refine ⟨st₂, ?_, ?_⟩
    · unfold remAll
      rw [hr]
      exact hrem₂
    · unfold delNotifyGo
      rw [hc]
      dsimp only
      rw [hr]
      dsimp only
      rw [hgo₂]
      dsimp only
      have htr : notifyTrace (wsRemovedKeyField st₁) rest =
          notifyTrace (wsRemovedKeyField st) rest := by
        apply notifyTrace_congr
        intro x _
        unfold wsRemovedKeyField
        rw [hsk x.conn]
      rw [htr]
      have hfield : (if c.singleKey || s.apiKey == "public" then none
          else some s.apiKey) = wsRemovedKeyField st s := by
        unfold wsRemovedKeyField singleKeyOf
        rw [hc]
        rfl
      rw [hfield]
      rfl

theorem sseDelNotifyGo_total {l : List Subscription} :
    ∀ {st : Registry}, RegInv st → (∀ s ∈ l, SubLive st s) → l.Nodup →
      ∃ st', remAll st l = some st' ∧
        sseDelNotifyGo st l = some (st', notifyTrace (sseRemovedKeyField st) l) := by
  induction l with
  | nil =>
    intro st _ _ _
    exact ⟨st, rfl, rfl⟩
  | cons s rest ih =>
    intro st hInv hlive hnd
    have hsl := hlive s (by simp)
    obtain ⟨hcm, hct, hck⟩ := subLive_entries hInv hsl
    obtain ⟨c, hc⟩ := Option.isSome_iff_exists.mp ((alookup_isSome_iff _ _).mpr hcm)
    have hsome := removeSubscription_isSome ((alookup_isSome_iff _ _).mpr hcm) hct hck
    obtain ⟨p, hr⟩ := Option.isSome_iff_exists.mp hsome
    obtain ⟨st₁, b⟩ := p
    have hInv₁ := (removeSubscription_spec hInv hr).2.2.2
    have hbt : b = true := by
      rw [removeSubscription_removed_iff hInv hr]
      exact hsl.2
    subst hbt
    have hlift := removeSubscription_subLive hInv hr
    have hnotin : ¬ s ∈ rest := (List.nodup_cons.mp hnd).1
    have hlive₁ : ∀ x ∈ rest, SubLive st₁ x := by
      intro x hx
      rw [hlift x]
      exact ⟨hlive x (by simp [hx]), fun he => hnotin (he ▸ hx)⟩
    obtain ⟨st₂, hrem₂, hgo₂⟩ := ih hInv₁ hlive₁ (List.nodup_cons.mp hnd).2
    have hsk := (removeSubscription_frame hr).2.2.2.2.1
    refine ⟨st₂, ?_, ?_⟩
    · unfold remAll
      rw [hr]
      exact hrem₂
    · unfold sseDelNotifyGo
      rw [hc]
      dsimp only
      rw [hr]
      dsimp only
      rw [hgo₂]
      dsimp only
      have htr : notifyTrace (sseRemovedKeyField st₁) rest =
          notifyTrace (sseRemovedKeyField st) rest := by
        apply notifyTrace_congr
        intro x _
        unfold sseRemovedKeyField
        rw [hsk x.conn]
      rw [htr]
      have hfield : (if c.singleKey then none else some s.apiKey) =
          sseRemovedKeyField st s := by
        unfold sseRemovedKeyField singleKeyOf
        rw [hc]
        rfl
      rw [hfield]
      rfl

def c2Ops : List Op := [Op.register "c1" false, Op.addSub "c1" "public" "/t1"]

def c2State : Registry := (execs initRegistry c2Ops).getD initRegistry

/-- C2 counterexample.  On a multi-key connection subscribed with the key
`"public"`, the SSE variant of `deleteAndNotifySubscriptions` writes a
`topicRemoved` event whose payload carries `apiKey: "public"`: the SSE loop
only checks `conn.attributes.singleKey` and lacks the WebSocket variant's
`sub.apiKey == 'public'` test, so the claimed condition "contains apiKey iff
not single-key and the key is not public" is false as stated. -/
theorem c2_counterexample :
    (sseDeleteAndNotifySubscriptions c2State [⟨"c1", "public", "/t1"⟩]).map
      (fun p => p.2) =
    some [TraceStep.removed ⟨"c1", "public", "/t1"⟩ true,
      TraceStep.sent "c1" (EventMsg.topicRemoved (some "public") "/t1")] := by
  decide

/-- C2 (amended).  On a reachable registry, for every duplicate-free list of
live subscriptions, both variants of `deleteAndNotifySubscriptions` process
each subscription by first removing it and then writing a `topicRemoved`
event with its topic to its connection (the final state is the fold of the
removals); the payload carries the apiKey iff the connection is not
single-key and (WebSocket variant only) the key is not the literal
`"public"` — the SSE variant includes the key for every multi-key
connection, even `"public"`. -/
theorem c2_delete_and_notify (ops : List Op) (st : Registry)
    (subs : List Subscription) (h : execs initRegistry ops = some st)
    (hlive : ∀ s ∈ subs, SubLive st s) (hnd : subs.Nodup) :
    (∃ st', remAll st subs = some st' ∧
      deleteAndNotifySubscriptions st subs =
        some (st', notifyTrace (wsRemovedKeyField st) subs) ∧
      sseDeleteAndNotifySubscriptions st subs =
        some (st', notifyTrace (sseRemovedKeyField st) subs)) ∧
    (∀ s ∈ subs,
      (wsRemovedKeyField st s = some s.apiKey ∧ singleKeyOf st s.conn = some false ∧
        s.apiKey ≠ "public") ∨
      (wsRemovedKeyField st s = none ∧
        (singleKeyOf st s.conn = some true ∨ s.apiKey = "public"))) ∧
    (∀ s ∈ subs,
      (sseRemovedKeyField st s = some s.apiKey ∧ singleKeyOf st s.conn = some false) ∨
      (sseRemovedKeyField st s = none ∧ singleKeyOf st s.conn = some true)) := by
  have hInv := inv_of_reachable h
  obtain ⟨st', hrem, hgo⟩ := delNotifyGo_total hInv hlive hnd
  obtain ⟨st'', hrem', hgo'⟩ := sseDelNotifyGo_total hInv hlive hnd
  have hst : st' = st'' := by
    rw [hrem] at hrem'
    exact Option.some.inj hrem'
  subst hst
  refine ⟨⟨st', hrem, ?_, ?_⟩, ?_, ?_⟩
  · unfold deleteAndNotifySubscriptions
    by_cases hz : countUniqueConnectionsInSubscriptions subs = 0
    · rw [if_pos hz]
      have hnil := (countUnique_eq_zero_iff subs).mp hz
      subst hnil
      have h0 : st = st' := Option.some.inj (show some st = some st' from hrem)
      rw [← h0]
      rfl
    · rw [if_neg hz]
      exact hgo
  · unfold sseDeleteAndNotifySubscriptions
    by_cases hz : countUniqueConnectionsInSubscriptions subs = 0
    · rw [if_pos hz]
      have hnil := (countUnique_eq_zero_iff subs).mp hz
      subst hnil
      have h0 : st = st' := Option.some.inj (show some st = some st' from hrem)
      rw [← h0]
      rfl
    · rw [if_neg hz]
      exact hgo'
  · intro s hs
    obtain ⟨hcm, _, _⟩ := subLive_entries hInv (hlive s hs)
    obtain ⟨c, hc⟩ := Option.isSome_iff_exists.mp ((alookup_isSome_iff _ _).mpr hcm)
    have hskv : singleKeyOf st s.conn = some c.singleKey := by
      unfold singleKeyOf
      rw [hc]
      rfl
    have hw : wsRemovedKeyField st s =
        (if c.singleKey || s.apiKey == "public" then none else some s.apiKey) := by
      unfold wsRemovedKeyField
      rw [hskv]
    by_cases h1 : c.singleKey = true
    · right
      rw [hw, hskv, h1]
      simp
    · simp only [Bool.not_eq_true] at h1
      by_cases h2 : s.apiKey = "public"
      · right
        rw [hw, hskv, h1]
        simp [h2]
      · left
        rw [hw, hskv, h1]
        simp [h2]
  · intro s hs
    obtain ⟨hcm, _, _⟩ := subLive_entries hInv (hlive s hs)
    obtain ⟨c, hc⟩ := Option.isSome_iff_exists.mp ((alookup_isSome_iff _ _).mpr hcm)
    have hskv : singleKeyOf st s.conn = some c.singleKey := by
      unfold singleKeyOf
      rw [hc]
      rfl
    have hw : sseRemovedKeyField st s =
        (if c.singleKey then none else some s.apiKey) := by
      unfold sseRemovedKeyField
      rw [hskv]
    by_cases h1 : c.singleKey = true
    · right
      rw [hw, hskv, h1]
      simp
    · simp only [Bool.not_eq_true] at h1
      left
      rw [hw, hskv, h1]
      simp

def c2WitnessOps : List Op :=
  [Op.register "c1" false, Op.addSub "c1" "k1" "/t1", Op.addSub "c1" "public" "/t2"]

def c2WitnessState : Registry := (execs initRegistry c2WitnessOps).getD initRegistry

def c2WitnessSubs : List Subscription :=
  [⟨"c1", "k1", "/t1"⟩, ⟨"c1", "public", "/t2"⟩]

theorem c2_witness :
    ∃ st', remAll c2WitnessState c2WitnessSubs = some st' ∧
      deleteAndNotifySubscriptions c2WitnessState c2WitnessSubs =
        some (st', notifyTrace (wsRemovedKeyField c2WitnessState) c2WitnessSubs) ∧
      sseDeleteAndNotifySubscriptions c2WitnessState c2WitnessSubs =
        some (st', notifyTrace (sseRemovedKeyField c2WitnessState) c2WitnessSubs) :=
  (c2_delete_and_notify c2WitnessOps c2WitnessState c2WitnessSubs
    (by decide) (by decide) (by decide)).1

/-! ## Claim C5: createSubscriptions atomicity on resolver failure -/

/-- Any thrown error leaves `handleCreateCore` with the registry it was
given: every throw happens in the verify phase, before the create phase
mutates anything. -/
theorem handleCreateCore_error_state {resolver : String → Option (List String)}
    {pub : String → Option Bool} {st : Registry} {cid : String}
    {data : CreateData} {e : CmdError} {st' : Registry}
    (h : handleCreateCore resolver pub st cid data = some (Except.error e, st')) :
    st' = st := by
  unfold handleCreateCore at h
  cases hs : data.subscriptions with
  | none =>
    rw [hs] at h
    have := Option.some.inj h
    exact (congrArg Prod.snd this).symm
  | some entries =>
    rw [hs] at h
    dsimp only at h
    by_cases hne : entries = []
    · rw [if_pos hne] at h
      have := Option.some.inj h
      exact (congrArg Prod.snd this).symm
    · rw [if_neg hne] at h
      cases hv : verifyEntries resolver pub ⟨none, [], []⟩ entries with
      | none => rw [hv] at h; exact absurd h (by simp)
      | some r =>
        rw [hv] at h
        cases r with
        | error e' =>
          dsimp only at h
          have := Option.some.inj h
          exact (congrArg Prod.snd this).symm
        | ok vs =>
          dsimp only at h
          cases ha : applySuccessful st cid vs.successful with
          | none => rw [ha] at h; exact absurd h (by simp)
          | some st₁ =>
            rw [ha] at h
            dsimp only at h
            have := Option.some.inj h
            have hres := congrArg Prod.fst this
            exact absurd hres.symm (by simp)

/-- C5.  If any Identity Resolver call made while processing a
`createSubscriptions` command fails by throwing (`CmdError.upstream`, the
only error produced by a failing `getAllKeyTopics` or
`checkPublicTopicAccess`), the registry — indexes, counters and
access-tracking flags — is exactly the state from before the command: all
resolver calls happen in the verify phase, which precedes every mutation. -/
theorem c5_create_atomic_on_resolver_failure
    (resolver : String → Option (List String)) (pub : String → Option Bool)
    (st : Registry) (cid : String) (data : CreateData) (st' : Registry)
    (h : handleCreate resolver pub st cid data =
      some (Except.error CmdError.upstream, st')) : st' = st := by
  unfold handleCreate at h
  cases hl : liveConn st cid with
  | none => rw [hl] at h; exact absurd h (by simp)
  | some c =>
    rw [hl] at h
    dsimp only at h
    by_cases hsk : c.singleKey = true
    · rw [if_pos hsk] at h
      have := Option.some.inj h
      exact (congrArg Prod.snd this).symm
    · rw [if_neg hsk] at h
      cases hc : handleCreateCore resolver pub st cid data with
      | none => rw [hc] at h; exact absurd h (by simp)
      | some p =>
        obtain ⟨res, st₁⟩ := p
        rw [hc] at h
        cases res with
        | error e =>
          dsimp only at h
          have := Option.some.inj h
          have hst : st₁ = st' := congrArg Prod.snd this
          rw [← hst]
          exact handleCreateCore_error_state hc
        | ok r =>
          dsimp only at h
          have := Option.some.inj h
          have hres := congrArg Prod.fst this
          exact absurd hres.symm (by simp)

def c5Ops : List Op := [Op.register "c1" false]

def c5State : Registry := (execs initRegistry c5Ops).getD initRegistry

def c5Resolver : String → Option (List String) := fun _ => none

def c5Pub : String → Option Bool := fun _ => some true

def c5Data : CreateData := ⟨some [⟨some "k1", none⟩]⟩

theorem c5_witness :
    handleCreate c5Resolver c5Pub c5State "c1" c5Data =
      some (Except.error CmdError.upstream, c5State) ∧ c5State = c5State :=
  ⟨by rfl,
    c5_create_atomic_on_resolver_failure c5Resolver c5Pub c5State "c1" c5Data c5State
      (by rfl)⟩

/-! ## Claim C6: commands on single-key connections -/

def c6SseOps : List Op := [Op.register "abcdef" true]

def c6SseState : Registry := (execs initRegistry c6SseOps).getD initRegistry

/-- C6 counterexample.  An SSE single-key connection has a 6-character id, so
`handleWriteRequest` skips the lookup (`matches[1].length == idLength`
fails) and rejects the command addressed to it with 404 "Connection not
found" — not with "single-key connection cannot be modified" as the claim
states for every command on a single-key connection. -/
theorem c6_counterexample :
    sseHandleWriteRequest c5Resolver c5Pub c6SseState "abcdef"
        (SseWriteMethod.delete ⟨some "k1", none⟩) =
      some (Except.error (CmdError.ws 404 "Connection not found"), c6SseState) ∧
    CmdError.ws 404 "Connection not found" ≠
      CmdError.ws 405 "Single-key connection cannot be modified" := by
  constructor
  · rfl
  · decide

/-- C6 (amended).  A `createSubscriptions` or `deleteSubscriptions` command
addressed to a single-key connection changes no subscription: in the
WebSocket variant both handlers fail with 405 "Single-key connection cannot
be modified"; in the SSE variant the write endpoint only resolves
12-character ids, so any request addressed to a single-key connection (6
alphanumeric characters) fails with 404 "Connection not found".  In all
three cases the registry is returned unchanged. -/
theorem c6_single_key_rejection :
    (∀ (resolver : String → Option (List String)) (pub : String → Option Bool)
        (st : Registry) (cid : String) (c : Conn) (data : CreateData),
      liveConn st cid = some c → c.singleKey = true →
      handleCreate resolver pub st cid data =
        some (Except.error
          (CmdError.ws 405 "Single-key connection cannot be modified"), st)) ∧
    (∀ (st : Registry) (cid : String) (c : Conn) (data : DeleteData),
      liveConn st cid = some c → c.singleKey = true →
      handleDelete st cid data =
        some (Except.error
          (CmdError.ws 405 "Single-key connection cannot be modified"), st)) ∧
    (∀ (resolver : String → Option (List String)) (pub : String → Option Bool)
        (st : Registry) (cid : String) (c : Conn) (m : SseWriteMethod),
      liveConn st cid = some c → c.singleKey = true → cid.length = 6 →
      cid.toList.all isAlnumChar = true →
      sseHandleWriteRequest resolver pub st cid m =
        some (Except.error (CmdError.ws 404 "Connection not found"), st)) := by
  refine ⟨?_, ?_, ?_⟩
  · intro resolver pub st cid c data hl hsk
    unfold handleCreate
    rw [hl]
    dsimp only
    rw [if_pos hsk]
  · intro st cid c data hl hsk
    unfold handleDelete
    rw [hl]
    dsimp only
    rw [if_pos hsk]
  · intro resolver pub st cid c m hl hsk hlen halnum
    unfold sseHandleWriteRequest
    have hne : ¬ (cid = "" ∨ ¬ cid.toList.all isAlnumChar = true) := by
      push_neg
      constructor
      · intro he
        rw [he] at hlen
        simp at hlen
      · exact halnum
    rw [if_neg hne]
    have h12 : ¬ cid.length = 12 := by
      rw [hlen]
      decide
    rw [if_neg h12]

def c6WsOps : List Op := [Op.register "c1" true]

def c6WsState : Registry := (execs initRegistry c6WsOps).getD initRegistry

theorem c6_witness :
    handleCreate c5Resolver c5Pub c6WsState "c1" ⟨none⟩ =
      some (Except.error
        (CmdError.ws 405 "Single-key connection cannot be modified"), c6WsState) ∧
    sseHandleWriteRequest c5Resolver c5Pub c6SseState "abcdef"
        (SseWriteMethod.post ⟨none⟩) =
      some (Except.error (CmdError.ws 404 "Connection not found"), c6SseState) :=
  ⟨c6_single_key_rejection.1 c5Resolver c5Pub c6WsState "c1" ⟨true, [], []⟩ ⟨none⟩
      (by decide) (by decide),
    c6_single_key_rejection.2.2 c5Resolver c5Pub c6SseState "abcdef" ⟨true, [], []⟩
      (SseWriteMethod.post ⟨none⟩) (by decide) (by decide) (by decide) (by decide)⟩

/-! ## Claim C8: connection-identifier lengths -/

def c8Gen : Nat → Nat → String := fun len _ => String.mk (List.replicate len 'a')

/-- C8 counterexample.  The WebSocket `registerConnection` hard-codes
`idLength = 6` (line 49), so a multi-key (`singleKey = false`) connection
also receives a 6-character identifier, refuting the claimed 12 characters
for non-single-key connections. -/
theorem c8_counterexample :
    (wsRegisterConnection c8Gen 1 initRegistry false).map (fun p => p.2) =
      some "aaaaaa" ∧ ("aaaaaa" : String).length = 6 := by
  constructor
  · rfl
  · rfl

/-- C8 (amended).  With an id generator producing alphanumeric strings of
the requested length, a successful registration assigns an identifier that
is absent from the live map and alphanumeric; its length is 6 for every
WebSocket connection regardless of `singleKey`, and, in the SSE variant,
6 for single-key connections and 12 otherwise. -/
theorem c8_register_id_length (gen : Nat → Nat → String) (fuel : Nat)
    (st : Registry) (sk : Bool) (st₁ st₂ : Registry) (id₁ id₂ : String)
    (hgen : ∀ len i, (gen len i).length = len ∧ (gen len i).toList.all isAlnumChar = true)
    (hws : wsRegisterConnection gen fuel st sk = some (st₁, id₁))
    (hsse : sseRegisterConnection gen fuel st sk = some (st₂, id₂)) :
    (id₁.length = 6 ∧ ¬ id₁ ∈ st.live ∧ id₁.toList.all isAlnumChar = true) ∧
    (id₂.length = (if sk then 6 else 12) ∧ ¬ id₂ ∈ st.live ∧
      id₂.toList.all isAlnumChar = true) := by
  constructor
  · unfold wsRegisterConnection at hws
    cases hg : generateId gen wsIdLength st fuel with
    | none => rw [hg] at hws; exact absurd hws (by simp)
    | some cid =>
      rw [hg] at hws
      obtain ⟨_, hcid, _⟩ := registerConnectionCore_elim hws
      subst hcid
      unfold generateId at hg
      have hp := List.find?_some hg
      have hm := List.mem_of_find?_eq_some hg
      simp only [List.mem_map, List.mem_range] at hm
      obtain ⟨i, _, hgi⟩ := hm
      have hlen := (hgen wsIdLength i).1
      have halnum := (hgen wsIdLength i).2
      rw [hgi] at hlen halnum
      refine ⟨hlen, ?_, halnum⟩
      simpa using hp
  · unfold sseRegisterConnection at hsse
    cases hg : generateId gen (sseIdLength sk) st fuel with
    | none => rw [hg] at hsse; exact absurd hsse (by simp)
    | some cid =>
      rw [hg] at hsse
      obtain ⟨_, hcid, _⟩ := registerConnectionCore_elim hsse
      subst hcid
      unfold generateId at hg
      have hp := List.find?_some hg
      have hm := List.mem_of_find?_eq_some hg
      simp only [List.mem_map, List.mem_range] at hm
      obtain ⟨i, _, hgi⟩ := hm
      have hlen := (hgen (sseIdLength sk) i).1
      have halnum := (hgen (sseIdLength sk) i).2
      rw [hgi] at hlen halnum
      refine ⟨?_, ?_, halnum⟩
      · rw [hlen]
        unfold sseIdLength
        rfl
      · simpa using hp

def c8WitGen : Nat → Nat → String := fun len _ => String.mk (List.replicate len 'b')

theorem c8_witness :
    (("bbbbbb" : String).length = 6 ∧ ¬ ("bbbbbb" : String) ∈ initRegistry.live ∧
      ("bbbbbb" : String).toList.all isAlnumChar = true) ∧
    (("bbbbbbbbbbbb" : String).length = (if false then 6 else 12) ∧
      ¬ ("bbbbbbbbbbbb" : String) ∈ initRegistry.live ∧
      ("bbbbbbbbbbbb" : String).toList.all isAlnumChar = true) :=
  c8_register_id_length c8WitGen 1 initRegistry false _ _ "bbbbbb" "bbbbbbbbbbbb"
    (by
      intro len i
      constructor
      · show (List.replicate len 'b').length = len
        exact List.length_replicate len 'b'
      · show (List.replicate len 'b').all isAlnumChar = true
        rw [List.all_eq_true]
        intro x hx
        rw [List.eq_of_mem_replicate hx]
        decide)
    (by rfl) (by rfl)

/-! ## Claim C9: the deleteSubscriptions result -/

/-- A subscription matches a `deleteSubscriptions` entry when it belongs to
the addressed connection, carries the entry's key, and — if the entry names
a topic — carries that topic. -/
def delEntryMatches (cid : String) (e : DeleteEntry) (s : Subscription) : Prop :=
  s.conn = cid ∧ e.apiKey = some s.apiKey ∧ (e.topic = none ∨ e.topic = some s.topic)

instance (cid : String) (e : DeleteEntry) (s : Subscription) :
    Decidable (delEntryMatches cid e s) := by
  unfold delEntryMatches
  infer_instance

theorem mem_keyEntryD_iff_subLive {st : Registry} (hInv : RegInv st)
    (s : Subscription) : s ∈ keyEntryD st s.apiKey ↔ SubLive st s := by
  rw [← countSub_pos_iff_mem]
  show 0 < keyCount st s ↔ _
  rw [subLive_iff_connCount]
  have h1 := hInv.agreeT s
  have h2 := hInv.agreeK s
  omega

/-- The snapshot taken by `removeConnectionSubscriptionsByKeyAndTopic` is
exactly the set of live subscriptions matching the entry, provided the
entry's topic is not the falsy empty string. -/
theorem mem_delSnapshot_iff {st : Registry} (hInv : RegInv st) (cid : String)
    (e : DeleteEntry) (k : String) (hk : e.apiKey = some k)
    (hne : e.topic ≠ some "") (x : Subscription) :
    (x ∈ (getSubscriptionsByKeyAndTopic st k e.topic).filter
        (fun s => s.conn == cid)) ↔
      (SubLive st x ∧ delEntryMatches cid e x) := by
  unfold getSubscriptionsByKeyAndTopic delEntryMatches
  rw [hk]
  cases hK : alookup st.keySubs k with
  | none =>
    simp only [List.filter_nil, List.not_mem_nil, false_iff]
    rintro ⟨hlx, hc, hkey, ht⟩
    have hxk : x.apiKey = k := by
      have := Option.some.inj hkey
      exact this.symm
    have hmem : x ∈ keyEntryD st x.apiKey :=
      (mem_keyEntryD_iff_subLive hInv x).mpr hlx
    rw [hxk] at hmem
    unfold keyEntryD at hmem
    rw [hK] at hmem
    simp at hmem
  | some kl =>
    have hklD : keyEntryD st k = kl := by
      unfold keyEntryD
      rw [hK]
      rfl
    rw [List.mem_filter, List.mem_filter]
    constructor
    · rintro ⟨⟨hkl, hpred⟩, hconn⟩
      have hxk : x.apiKey = k := hInv.wfKey k kl hK x hkl
      have hlx : SubLive st x := by
        rw [← mem_keyEntryD_iff_subLive hInv, hxk, hklD]
        exact hkl
      refine ⟨hlx, by simpa using hconn, by rw [hxk], ?_⟩
      cases he : e.topic with
      | none => exact Or.inl rfl
      | some t =>
        rw [he] at hpred hne
        dsimp only at hpred
        have ht : ¬ t = "" := fun hc => hne (by rw [hc])
        have hbe : (t == "") = false := by simpa using ht
        rw [hbe] at hpred
        simp only [Bool.false_or, beq_iff_eq] at hpred
        exact Or.inr (by rw [hpred])
    · rintro ⟨hlx, hc, hkey, ht⟩
      have hxk : x.apiKey = k := (Option.some.inj hkey).symm
      have hkl : x ∈ kl := by
        rw [← hklD, ← hxk]
        exact (mem_keyEntryD_iff_subLive hInv x).mpr hlx
      refine ⟨⟨hkl, ?_⟩, by simpa using hc⟩
      cases he : e.topic with
      | none => rfl
      | some t =>
        rw [he] at ht
        rcases ht with ht | ht
        · exact absurd ht (by simp)
        · have := Option.some.inj ht
          simp [← this]

/-- Full description of one `deleteSubscriptions` entry:
`removeConnectionSubscriptionsByKeyAndTopic` preserves the invariant, kills
exactly the live subscriptions matching the entry, reports zero exactly
when nothing matched, and is the identity in that case. -/
theorem removeConnectionSubs_full {st : Registry} {cid : String}
    {e : DeleteEntry} {k : String} {n : Nat} {st' : Registry}
    (hInv : RegInv st) (hk : e.apiKey = some k) (hne : e.topic ≠ some "")
    (h : removeConnectionSubscriptionsByKeyAndTopic st cid k e.topic = some (n, st')) :
    RegInv st' ∧
    (∀ s, SubLive st' s ↔ (SubLive st s ∧ ¬ delEntryMatches cid e s)) ∧
    ((n = 0) ↔ ∀ s, SubLive st s → ¬ delEntryMatches cid e s) ∧
    (n = 0 → st' = st) := by
  unfold removeConnectionSubscriptionsByKeyAndTopic at h
  cases hK : alookup st.keySubs k with
  | none =>
    rw [hK] at h
    have hp := Option.some.inj h
    have hn : (0 : Nat) = n := congrArg Prod.fst hp
    have hst : st = st' := congrArg Prod.snd hp
    have hnom : ∀ s, SubLive st s → ¬ delEntryMatches cid e s := by
      rintro s hls ⟨hc, hkey, ht⟩
      have hsk : s.apiKey = k := by
        rw [hk] at hkey
        exact (Option.some.inj hkey).symm
      have hmem : s ∈ keyEntryD st s.apiKey :=
        (mem_keyEntryD_iff_subLive hInv s).mpr hls
      rw [hsk] at hmem
      unfold keyEntryD at hmem
      rw [hK] at hmem
      simp at hmem
    rw [← hst, ← hn]
    refine ⟨hInv, ?_, ?_, fun _ => rfl⟩
    · intro s
      constructor
      · intro hs
        exact ⟨hs, hnom s hs⟩
      · intro hs
        exact hs.1
    · simp only [true_iff]
      exact hnom
  | some kl =>
    rw [hK] at h
    dsimp only at h
    cases hr : remAll st ((getSubscriptionsByKeyAndTopic st k e.topic).filter
        (fun s => s.conn == cid)) with
    | none =>
      rw [hr] at h
      exact absurd h (by simp)
    | some st₁ =>
      rw [hr] at h
      dsimp only [Option.map] at h
      have hp := Option.some.inj h
      have hn : ((getSubscriptionsByKeyAndTopic st k e.topic).filter
          (fun s => s.conn == cid)).length = n := congrArg Prod.fst hp
      have hst : st₁ = st' := congrArg Prod.snd hp
      subst hst
      obtain ⟨hInv', hlives, _, _, _, _, _, _⟩ := remAll_spec hInv hr
      have hsnap := mem_delSnapshot_iff hInv cid e k hk hne
      refine ⟨hInv', ?_, ?_, ?_⟩
      · intro s
        rw [hlives s, hsnap s]
        constructor
        · rintro ⟨h1, h2⟩
          exact ⟨h1, fun hm => h2 ⟨h1, hm⟩⟩
        · rintro ⟨h1, h2⟩
          exact ⟨h1, fun hm => h2 hm.2⟩
      · rw [← hn]
        rw [List.length_eq_zero]
        constructor
        · intro hnil s hls hm
          have : s ∈ ((getSubscriptionsByKeyAndTopic st k e.topic).filter
              (fun s => s.conn == cid)) := (hsnap s).mpr ⟨hls, hm⟩
          rw [hnil] at this
          simp at this
        · intro hnom
          cases hx : ((getSubscriptionsByKeyAndTopic st k e.topic).filter
              (fun s => s.conn == cid)) with
          | nil => rfl
          | cons y l =>
            have hy : y ∈ ((getSubscriptionsByKeyAndTopic st k e.topic).filter
                (fun s => s.conn == cid)) := by rw [hx]; simp
            have := (hsnap y).mp hy
            exact absurd this.2 (hnom y this.1)
      · intro hn0
        rw [← hn] at hn0
        have hnil := List.length_eq_zero.mp hn0
        rw [hnil] at hr
        unfold remAll at hr
        exact (Option.some.inj hr).symm

/-- The entry loop of `handleDelete`, run over well-formed entries (key
present, topic not the falsy empty string): it always succeeds, the
accumulated total grows by the number of removals, matching subscriptions
are gone afterwards, and a total equal to the starting one means nothing
matched and nothing changed. -/
theorem deleteLoop_full {cid : String} {entries : List DeleteEntry} :
    ∀ {st : Registry} {total : Nat} {res : Except CmdError Nat} {st' : Registry},
      RegInv st →
      (∀ e ∈ entries, e.apiKey.isSome = true ∧ e.topic ≠ some "") →
      deleteLoop st cid total entries = some (res, st') →
      ∃ total', res = Except.ok total' ∧ RegInv st' ∧ total ≤ total' ∧
        (∀ s, SubLive st' s → SubLive st s) ∧
        (∀ e ∈ entries, ∀ s, SubLive st' s → ¬ delEntryMatches cid e s) ∧
        ((total' = total) ↔
          (∀ e ∈ entries, ∀ s, SubLive st s → ¬ delEntryMatches cid e s)) ∧
        (total' = total → st' = st) := by
  induction entries with
  | nil =>
    intro st total res st' hInv _ h
    unfold deleteLoop at h
    have hp := Option.some.inj h
    have hres : Except.ok total = res := congrArg Prod.fst hp
    have hst : st = st' := congrArg Prod.snd hp
    refine ⟨total, hres.symm, hst ▸ hInv, Nat.le_refl total, ?_, ?_, ?_, ?_⟩
    · intro s hs
      rw [hst]
      exact hs
    · intro e he
      simp at he
    · simp only [true_iff]
      intro e he
      simp at he
    · intro _
      exact hst.symm
  | cons e rest ih =>
    intro st total res st' hInv hwf h
    obtain ⟨hkey, hne⟩ := hwf e (by simp)
    obtain ⟨k, hk⟩ := Option.isSome_iff_exists.mp hkey
    unfold deleteLoop at h
    rw [hk] at h
    dsimp only at h
    cases hr : removeConnectionSubscriptionsByKeyAndTopic st cid k e.topic with
    | none =>
      rw [hr] at h
      exact absurd h (by simp)
    | some p =>
      obtain ⟨n, st₁⟩ := p
      rw [hr] at h
      obtain ⟨hInv₁, hlives₁, hzero₁, hid₁⟩ := removeConnectionSubs_full hInv hk hne hr
      have hwfr : ∀ x ∈ rest, x.apiKey.isSome = true ∧ x.topic ≠ some "" :=
        fun x hx => hwf x (by simp [hx])
      obtain ⟨total', hres, hInv', hle, hmono, hnom, hiff, heq⟩ := ih hInv₁ hwfr h
      have hmono₁ : ∀ s, SubLive st₁ s → SubLive st s :=
        fun s hs => ((hlives₁ s).mp hs).1
      refine ⟨total', hres, hInv', by omega, fun s hs => hmono₁ s (hmono s hs), ?_, ?_, ?_⟩
      · intro x hx s hs
        rcases List.mem_cons.mp hx with hx | hx
        · subst hx
          exact ((hlives₁ s).mp (hmono s hs)).2
        · exact hnom x hx s hs
      · constructor
        · intro ht x hx s hls
          have hn0 : n = 0 := by omega
          have hst₁ : st₁ = st := hid₁ hn0
          rcases List.mem_cons.mp hx with hx | hx
          · subst hx
            exact (hzero₁.mp hn0) s hls
          · have hrest := hiff.mp (by omega)
            rw [hst₁] at hrest
            exact hrest x hx s hls
        · intro hall
          have hhead : ∀ s, SubLive st s → ¬ delEntryMatches cid e s :=
            fun s hls => hall e (by simp) s hls
          have hn0 : n = 0 := hzero₁.mpr hhead
          have hst₁ : st₁ = st := hid₁ hn0
          have hrest : ∀ x ∈ rest, ∀ s, SubLive st₁ s → ¬ delEntryMatches cid x s := by
            rw [hst₁]
            intro x hx s hls
            exact hall x (by simp [hx]) s hls
          have := hiff.mpr hrest
          omega
      · intro ht
        have hn0 : n = 0 := by omega
        have hst₁ : st₁ = st := hid₁ hn0
        have hst' : st' = st₁ := heq (by omega)
        rw [hst', hst₁]

theorem removeConnectionSubs_isSome {st : Registry} {cid : String}
    {e : DeleteEntry} {k : String} (hInv : RegInv st) (hk : e.apiKey = some k)
    (hne : e.topic ≠ some "") :
    (removeConnectionSubscriptionsByKeyAndTopic st cid k e.topic).isSome = true := by
  unfold removeConnectionSubscriptionsByKeyAndTopic
  cases hK : alookup st.keySubs k with
  | none => simp
  | some kl =>
    dsimp only
    have hs := remAll_isSome (l := (getSubscriptionsByKeyAndTopic st k e.topic).filter
        (fun s => s.conn == cid)) hInv (fun x hx =>
      subLive_entries hInv ((mem_delSnapshot_iff hInv cid e k hk hne x).mp hx).1)
    cases hr : remAll st ((getSubscriptionsByKeyAndTopic st k e.topic).filter
        (fun s => s.conn == cid)) with
    | none => rw [hr] at hs; simp at hs
    | some st₁ => simp

theorem deleteLoop_isSome {cid : String} {entries : List DeleteEntry} :
    ∀ {st : Registry} {total : Nat}, RegInv st →
      (∀ e ∈ entries, e.apiKey.isSome = true ∧ e.topic ≠ some "") →
      (deleteLoop st cid total entries).isSome = true := by
  induction entries with
  | nil => intro st total _ _; simp [deleteLoop]
  | cons e rest ih =>
    intro st total hInv hwf
    obtain ⟨hkey, hne⟩ := hwf e (by simp)
    obtain ⟨k, hk⟩ := Option.isSome_iff_exists.mp hkey
    unfold deleteLoop
    rw [hk]
    dsimp only
    have hrs := @removeConnectionSubs_isSome st cid e k hInv hk hne
    cases hr : removeConnectionSubscriptionsByKeyAndTopic st cid k e.topic with
    | none => rw [hr] at hrs; simp at hrs
    | some p =>
      obtain ⟨n, st₁⟩ := p
      have hInv₁ := ((removeConnectionSubs_spec hInv hr).1 : RegInv st₁)
      exact ih hInv₁ (fun x hx => hwf x (by simp [hx]))

/-- C9.  On a reachable registry, a `deleteSubscriptions` command addressed
to a live multi-key connection with a non-empty well-formed subscriptions
array (each entry carries an apiKey, and no entry names the empty-string
topic the source treats as absent) removes, for each entry, exactly the
live subscriptions of that connection matching the entry's apiKey and — if
given — its topic; it fails with 409 "No matching subscription" leaving the
registry untouched exactly when no entry matched anything, and otherwise
responds with a `subscriptionsDeleted` event to the connection. -/
theorem c9_delete_subscriptions (ops : List Op) (st : Registry) (cid : String)
    (c : Conn) (entries : List DeleteEntry)
    (hre : execs initRegistry ops = some st)
    (hconn : liveConn st cid = some c) (hsk : c.singleKey = false)
    (hents : ¬ entries = [])
    (hwf : ∀ e ∈ entries, e.apiKey.isSome = true ∧ e.topic ≠ some "") :
    ∃ res st', handleDelete st cid ⟨some entries⟩ = some (res, st') ∧
      (∀ e ∈ entries, ∀ s, SubLive st' s → ¬ delEntryMatches cid e s) ∧
      (∀ s, SubLive st' s → SubLive st s) ∧
      ((res = Except.error (CmdError.ws 409 "No matching subscription") ∧ st' = st) ↔
        (∀ e ∈ entries, ∀ s, SubLive st s → ¬ delEntryMatches cid e s)) ∧
      ((¬ ∀ e ∈ entries, ∀ s, SubLive st s → ¬ delEntryMatches cid e s) →
        res = Except.ok [TraceStep.sent cid EventMsg.subscriptionsDeleted]) := by
  have hInv := inv_of_reachable hre
  have hls := @deleteLoop_isSome cid entries st 0 hInv hwf
  cases hdl : deleteLoop st cid 0 entries with
  | none => rw [hdl] at hls; simp at hls
  | some p =>
    obtain ⟨res₀, st₁⟩ := p
    obtain ⟨total', hres, hInv', hle, hmono, hnom, hiff, heq⟩ :=
      deleteLoop_full hInv hwf hdl
    subst hres
    have hH : handleDelete st cid ⟨some entries⟩ =
        (if total' = 0 then
          some (Except.error (CmdError.ws 409 "No matching subscription"), st₁)
        else
          some (Except.ok [TraceStep.sent cid EventMsg.subscriptionsDeleted], st₁)) := by
      unfold handleDelete
      rw [hconn]
      dsimp only
      rw [if_neg (show ¬ c.singleKey = true by rw [hsk]; simp)]
      rw [if_neg hents]
      rw [hdl]
    by_cases h0 : total' = 0
    · rw [if_pos h0] at hH
      have hst : st₁ = st := heq h0
      refine ⟨_, _, hH, hnom, hmono, ?_, ?_⟩
      · constructor
        · intro _
          exact hiff.mp h0
        · intro _
          exact ⟨rfl, hst⟩
      · intro hnm
        exact absurd (hiff.mp h0) hnm
    · rw [if_neg h0] at hH
      refine ⟨_, _, hH, hnom, hmono, ?_, ?_⟩
      · constructor
        · rintro ⟨habs, _⟩
          exact absurd habs (by simp)
        · intro hnm
          exact absurd (hiff.mpr hnm) h0
      · intro _
        rfl

def c9Ops : List Op := [Op.register "c1" false, Op.addSub "c1" "k1" "/t1"]

def c9State : Registry := (execs initRegistry c9Ops).getD initRegistry

def c9Entries : List DeleteEntry := [⟨some "k1", none⟩]

theorem c9_witness :
    ∃ res st', handleDelete c9State "c1" ⟨some c9Entries⟩ = some (res, st') ∧
      (∀ e ∈ c9Entries, ∀ s, SubLive st' s → ¬ delEntryMatches "c1" e s) ∧
      (∀ s, SubLive st' s → SubLive c9State s) ∧
      ((res = Except.error (CmdError.ws 409 "No matching subscription") ∧
          st' = c9State) ↔
        (∀ e ∈ c9Entries, ∀ s, SubLive c9State s → ¬ delEntryMatches "c1" e s)) ∧
      ((¬ ∀ e ∈ c9Entries, ∀ s, SubLive c9State s → ¬ delEntryMatches "c1" e s) →
        res = Except.ok [TraceStep.sent "c1" EventMsg.subscriptionsDeleted]) :=
  c9_delete_subscriptions c9Ops c9State "c1" ⟨false, [⟨"c1", "k1", "/t1"⟩], []⟩
    c9Entries (by decide) (by decide) (by decide) (by decide) (by decide)
